import Mathlib

/-!
Verification of the Go board core (`GoBoard`, `Cluster`) of `go-rs`.

The board state, the recursive flood fill computing clusters, the liberty
tests, capture bookkeeping and the placement-resolution algorithm are
embedded as executable Lean functions mirroring the Rust source in
`src/main.rs`.  `usize` coordinates are modelled as `Nat`, with
`wrapping_sub 1` made explicit (`wsub`); boards carry their `size` field and
a row-major grid `board[y][x]` exactly as in the source.
-/

set_option maxHeartbeats 1000000

/-- Largest `usize` value: coordinates in the source are 64-bit `usize`. -/
def USIZE_MAX : Nat := 2 ^ 64 - 1

/-- `x.wrapping_sub(1)` on `usize`, as used by the source for left/up
neighbours: `0 - 1` wraps around to `USIZE_MAX`. -/
def wsub (x : Nat) : Nat := if x = 0 then USIZE_MAX else x - 1

/-- The cell states of the board (source enum `BoardCellOption`). -/
inductive BoardCellOption
  | Black
  | White
  | None
deriving DecidableEq, Repr

/-- The board: size, row-major grid (`board[y][x]`), capture counters
(source struct `GoBoard`). -/
structure GoBoard where
  size : Nat
  board : List (List BoardCellOption)
  captured_black : Nat
  captured_white : Nat
deriving DecidableEq, Repr

/-- A coordinate `(x, y)` (source `[usize; 2]` with `p[0] = x`, `p[1] = y`). -/
abbrev Coord := Nat × Nat

/-- Read `board[y][x]` (sourced indexing; callers guard bounds). -/
def getCell (b : GoBoard) (x y : Nat) : BoardCellOption :=
  (b.board.getD y []).getD x BoardCellOption.None

/-- Write `board[y][x] = piece`, leaving size and counters alone. -/
def writeCell (b : GoBoard) (x y : Nat) (piece : BoardCellOption) : GoBoard :=
  { b with board := b.board.set y ((b.board.getD y []).set x piece) }

/-- Source `GoBoard::new`: an all-Empty grid with zeroed counters. -/
def GoBoard.new (size : Nat) : GoBoard :=
  { size := size
    board := List.replicate size (List.replicate size BoardCellOption.None)
    captured_black := 0
    captured_white := 0 }

/-- Source `GoBoard::value`: in bounds and Empty. -/
def GoBoard.value (b : GoBoard) (x y : Nat) : Bool :=
  decide (x < b.size) && decide (y < b.size) &&
    decide (getCell b x y = BoardCellOption.None)

/-- Source `GoBoard::has_liberties` (single-cell liberty test): some
orthogonal neighbour is in bounds and Empty. -/
def GoBoard.has_liberties (b : GoBoard) (x y : Nat) : Bool :=
  b.value (x + 1) y || b.value (wsub x) y || b.value x (y + 1) || b.value x (wsub y)

/-- Source struct `Cluster`: a member list and the shared colour. -/
structure Cluster where
  pieces : List Coord
  color : BoardCellOption
deriving DecidableEq, Repr

/-- Source `Cluster::has_liberties`: some member cell has a liberty. -/
def Cluster.has_liberties (c : Cluster) (b : GoBoard) : Bool :=
  c.pieces.any fun p => b.has_liberties p.1 p.2

/-- Fuelled version of the recursive flood fill `Cluster::next_piece`.
The body is a literal transcription of the source: bounds check, colour
check, conditional push of `(x, y)`, then the four guarded recursive calls
in source order (up, left, right, down), each threaded through the grown
member list.  Fuel only bounds the recursion depth; `nextPieceF_stable`
below shows any fuel above the termination measure gives the same result. -/
def nextPieceF (b : GoBoard) (c : BoardCellOption) :
    Nat → List Coord → Nat → Nat → List Coord
  | 0, pieces, _, _ => pieces
  | fuel + 1, pieces, x, y =>
    if x < b.size ∧ y < b.size then
      if getCell b x y = c ∧ getCell b x y ≠ BoardCellOption.None then
        let p0 := if (x, y) ∈ pieces then pieces else pieces ++ [(x, y)]
        let p1 := if (x, wsub y) ∈ p0 then p0 else nextPieceF b c fuel p0 x (wsub y)
        let p2 := if (wsub x, y) ∈ p1 then p1 else nextPieceF b c fuel p1 (wsub x) y
        let p3 := if (x + 1, y) ∈ p2 then p2 else nextPieceF b c fuel p2 (x + 1) y
        if (x, y + 1) ∈ p3 then p3 else nextPieceF b c fuel p3 x (y + 1)
      else pieces
    else pieces

/-- All in-bounds coordinates of an `n × n` board. -/
def allCoords (n : Nat) : Finset Coord := Finset.range n ×ˢ Finset.range n

/-- Number of in-bounds coordinates not yet collected: the main component
of the termination measure of the flood fill. -/
def remCount (b : GoBoard) (pieces : List Coord) : Nat :=
  ((allCoords b.size).filter (fun p => p ∉ pieces)).card

/-- Termination measure for `Cluster::next_piece`. -/
def npMeasure (b : GoBoard) (pieces : List Coord) (x y : Nat) : Nat :=
  2 * remCount b pieces + (if (x, y) ∈ pieces then 1 else 0)

/-- Source `Cluster::next_piece`, with the fuel fixed above the measure. -/
def Cluster.next_piece (cl : Cluster) (b : GoBoard) (x y : Nat) : Cluster :=
  { cl with pieces := nextPieceF b cl.color (npMeasure b cl.pieces x y + 1) cl.pieces x y }

/-- Source `Cluster::from`: seed the member list with `(x, y)`, take the
seed's colour, then run the flood fill towards the four neighbours. -/
def Cluster.from' (b : GoBoard) (x y : Nat) : Cluster :=
  let cl : Cluster := { pieces := [(x, y)], color := getCell b x y }
  let cl := cl.next_piece b x (wsub y)
  let cl := cl.next_piece b (wsub x) y
  let cl := cl.next_piece b (x + 1) y
  cl.next_piece b x (y + 1)

/-- Source `GoBoard::clear_cluster`: credit the opposite colour's capture
counter with the member count, then empty every member cell. -/
def GoBoard.clear_cluster (b : GoBoard) (c : Cluster) : GoBoard :=
  let b1 :=
    match c.color with
    | BoardCellOption.Black => { b with captured_white := b.captured_white + c.pieces.length }
    | BoardCellOption.White => { b with captured_black := b.captured_black + c.pieces.length }
    | BoardCellOption.None => b
  c.pieces.foldl (fun acc p => writeCell acc p.1 p.2 BoardCellOption.None) b1

/-- One cluster evaluation of `GoBoard::update`: compute the cluster seeded
at `(x, y)` and clear it when it has no liberties. -/
def clusterStep (b : GoBoard) (x y : Nat) : GoBoard :=
  let c := Cluster.from' b x y
  if c.has_liberties b then b else b.clear_cluster c

/-- Source `GoBoard::update`: evaluate the seed cluster, then the four
in-bounds neighbour clusters in source order (left, right, up, down). -/
def GoBoard.update (b : GoBoard) (x y : Nat) : GoBoard :=
  let b := clusterStep b x y
  let b := if wsub x < b.size then clusterStep b (wsub x) y else b
  let b := if x + 1 < b.size then clusterStep b (x + 1) y else b
  let b := if wsub y < b.size then clusterStep b x (wsub y) else b
  if y + 1 < b.size then clusterStep b x (y + 1) else b

/-- Source `GoBoard::set`: in bounds, write the piece and resolve captures;
out of bounds, silently do nothing. -/
def GoBoard.set (b : GoBoard) (x y : Nat) (piece : BoardCellOption) : GoBoard :=
  if x < b.size ∧ y < b.size then (writeCell b x y piece).update x y else b

/-- Well-formedness of a board value: a genuine `usize` size and an
`size × size` grid, as every `GoBoard` built by the source satisfies. -/
def WF (b : GoBoard) : Prop :=
  b.size ≤ USIZE_MAX ∧ b.board.length = b.size ∧ ∀ row ∈ b.board, row.length = b.size

instance (b : GoBoard) : Decidable (WF b) := by unfold WF; infer_instance

/-! ### Basic facts about cell reads and writes -/

theorem size_writeCell (b : GoBoard) (x y : Nat) (p : BoardCellOption) :
    (writeCell b x y p).size = b.size := rfl

theorem captured_black_writeCell (b : GoBoard) (x y : Nat) (p : BoardCellOption) :
    (writeCell b x y p).captured_black = b.captured_black := rfl

theorem captured_white_writeCell (b : GoBoard) (x y : Nat) (p : BoardCellOption) :
    (writeCell b x y p).captured_white = b.captured_white := rfl

theorem getCell_writeCell_ne (b : GoBoard) (x y x' y' : Nat) (p : BoardCellOption)
    (h : (x', y') ≠ (x, y)) :
    getCell (writeCell b x y p) x' y' = getCell b x' y' := by
  unfold getCell writeCell
  simp only [List.getD_eq_getElem?_getD, List.getElem?_set]
  by_cases hy : y = y'
  · subst hy
    have hx : x ≠ x' := fun hxx => h (by simp [hxx])
    by_cases hl : y < b.board.length
    · simp [hl, List.getElem?_set, hx, List.getD_eq_getElem?_getD]
    · simp [hl, List.getElem?_eq_none (Nat.le_of_not_lt hl)]
  · simp [hy]

theorem getCell_writeCell_self (b : GoBoard) (x y : Nat) (p : BoardCellOption)
    (hy : y < b.board.length) (hx : x < (b.board.getD y []).length) :
    getCell (writeCell b x y p) x y = p := by
  unfold getCell writeCell
  have hx' : x < b.board[y].length := by
    simpa [List.getD_eq_getElem?_getD, List.getElem?_eq_getElem hy] using hx
  simp [List.getD_eq_getElem?_getD, List.getElem?_set, hy, hx']

theorem WF_writeCell (b : GoBoard) (x y : Nat) (p : BoardCellOption) (hWF : WF b) :
    WF (writeCell b x y p) := by
  obtain ⟨hu, hlen, hrow⟩ := hWF
  by_cases hl : y < b.board.length
  · refine ⟨hu, by simp [writeCell, hlen], ?_⟩
    intro row hmem
    rcases List.mem_or_eq_of_mem_set hmem with hmem' | rfl
    · exact hrow _ hmem'
    · have hg : b.board.getD y [] = b.board[y] := by
        simp [List.getD_eq_getElem?_getD, List.getElem?_eq_getElem hl]
      rw [size_writeCell, List.length_set, hg]
      exact hrow _ (List.getElem_mem hl)
  · have hnoop : (writeCell b x y p).board = b.board := by
      simp [writeCell, List.set_eq_of_length_le (Nat.le_of_not_lt hl)]
    refine ⟨hu, by rw [hnoop]; exact hlen, ?_⟩
    intro row hmem
    rw [hnoop] at hmem
    exact hrow _ hmem

/-- The length of any in-bounds row of a well-formed board is `size`. -/
theorem row_length (b : GoBoard) (hWF : WF b) (y : Nat) (hy : y < b.size) :
    (b.board.getD y []).length = b.size := by
  obtain ⟨_, hlen, hrow⟩ := hWF
  have hl : y < b.board.length := by rw [hlen]; exact hy
  have hg : b.board.getD y [] = b.board[y] := by
    simp [List.getD_eq_getElem?_getD, List.getElem?_eq_getElem hl]
  rw [hg]
  exact hrow _ (List.getElem_mem hl)

theorem getCell_writeCell_self_of_WF (b : GoBoard) (x y : Nat) (p : BoardCellOption)
    (hWF : WF b) (hx : x < b.size) (hy : y < b.size) :
    getCell (writeCell b x y p) x y = p := by
  refine getCell_writeCell_self b x y p ?_ ?_
  · rw [hWF.2.1]; exact hy
  · rw [row_length b hWF y hy]; exact hx

/-! ### The cell-emptying loop of `clear_cluster` -/

/-- The counter bump at the head of `GoBoard::clear_cluster`. -/
def counterBump (b : GoBoard) (c : Cluster) : GoBoard :=
  match c.color with
  | BoardCellOption.Black => { b with captured_white := b.captured_white + c.pieces.length }
  | BoardCellOption.White => { b with captured_black := b.captured_black + c.pieces.length }
  | BoardCellOption.None => b

/-- The member-emptying loop of `GoBoard::clear_cluster`. -/
def clearWrites (l : List Coord) (b : GoBoard) : GoBoard :=
  l.foldl (fun acc p => writeCell acc p.1 p.2 BoardCellOption.None) b

theorem clear_cluster_eq (b : GoBoard) (c : Cluster) :
    b.clear_cluster c = clearWrites c.pieces (counterBump b c) := rfl

theorem clearWrites_nil (b : GoBoard) : clearWrites [] b = b := rfl

theorem clearWrites_cons (p : Coord) (rest : List Coord) (b : GoBoard) :
    clearWrites (p :: rest) b = clearWrites rest (writeCell b p.1 p.2 BoardCellOption.None) := rfl

theorem clearWrites_size (l : List Coord) (b : GoBoard) :
    (clearWrites l b).size = b.size := by
  induction l generalizing b with
  | nil => rfl
  | cons p rest ih => rw [clearWrites_cons, ih, size_writeCell]

theorem clearWrites_captured_black (l : List Coord) (b : GoBoard) :
    (clearWrites l b).captured_black = b.captured_black := by
  induction l generalizing b with
  | nil => rfl
  | cons p rest ih => rw [clearWrites_cons, ih, captured_black_writeCell]

theorem clearWrites_captured_white (l : List Coord) (b : GoBoard) :
    (clearWrites l b).captured_white = b.captured_white := by
  induction l generalizing b with
  | nil => rfl
  | cons p rest ih => rw [clearWrites_cons, ih, captured_white_writeCell]

theorem clearWrites_WF (l : List Coord) (b : GoBoard) (hWF : WF b) :
    WF (clearWrites l b) := by
  induction l generalizing b with
  | nil => exact hWF
  | cons p rest ih => rw [clearWrites_cons]; exact ih _ (WF_writeCell _ _ _ _ hWF)

theorem getCell_clearWrites_not_mem (l : List Coord) (b : GoBoard) (x y : Nat)
    (h : (x, y) ∉ l) :
    getCell (clearWrites l b) x y = getCell b x y := by
  induction l generalizing b with
  | nil => rfl
  | cons p rest ih =>
    rw [clearWrites_cons, ih _ (fun hm => h (List.mem_cons_of_mem _ hm))]
    exact getCell_writeCell_ne _ _ _ _ _ _ fun he => h (by simp [he])

theorem getCell_clearWrites_mem (l : List Coord) (b : GoBoard) (x y : Nat)
    (hWF : WF b) (hb : ∀ p ∈ l, p.1 < b.size ∧ p.2 < b.size) (h : (x, y) ∈ l) :
    getCell (clearWrites l b) x y = BoardCellOption.None := by
  induction l generalizing b with
  | nil => exact absurd h (List.not_mem_nil _)
  | cons p rest ih =>
    rw [clearWrites_cons]
    by_cases hr : (x, y) ∈ rest
    · exact ih _ (WF_writeCell _ _ _ _ hWF)
        (fun q hq => by rw [size_writeCell]; exact hb q (List.mem_cons_of_mem _ hq)) hr
    · have hp : p = (x, y) := by
        rcases List.mem_cons.mp h with he | hm
        · exact he.symm
        · exact absurd hm hr
      subst hp
      rw [getCell_clearWrites_not_mem _ _ _ _ hr]
      exact getCell_writeCell_self_of_WF b x y _ hWF (hb _ (List.mem_cons_self _ _)).1
        (hb _ (List.mem_cons_self _ _)).2

/-! ### The flood fill: basic structure -/

/-- A coordinate qualifies for the flood fill of colour `c`: in bounds and
carrying colour `c`, which is not Empty (the source checks
`board[y][x] == self.color && board[y][x] != None`). -/
def qual (b : GoBoard) (c : BoardCellOption) (p : Coord) : Prop :=
  p.1 < b.size ∧ p.2 < b.size ∧ getCell b p.1 p.2 = c ∧ c ≠ BoardCellOption.None

/-- Orthogonal adjacency of two coordinates. -/
def adj (p q : Coord) : Prop :=
  (p.1 = q.1 ∧ (p.2 + 1 = q.2 ∨ q.2 + 1 = p.2)) ∨
  (p.2 = q.2 ∧ (p.1 + 1 = q.1 ∨ q.1 + 1 = p.1))

/-- One connectivity step towards a qualifying coordinate. -/
def stepRel (b : GoBoard) (c : BoardCellOption) (p q : Coord) : Prop :=
  adj p q ∧ qual b c q

/-- The maximal orthogonally-connected same-colour component containing the
seed `s`: everything reachable from `s` through cells of the seed's colour. -/
def sameColorComponent (b : GoBoard) (s : Coord) : Set Coord :=
  {p | Relation.ReflTransGen (stepRel b (getCell b s.1 s.2)) s p}

/-- One guarded recursive call of the flood fill, as the source performs it:
skip a target already collected, otherwise recurse into it. -/
def npCall (b : GoBoard) (c : BoardCellOption) (fuel : Nat) (q : List Coord)
    (t : Coord) : List Coord :=
  if t ∈ q then q else nextPieceF b c fuel q t.1 t.2

theorem nextPieceF_succ (b : GoBoard) (c : BoardCellOption) (n : Nat)
    (pieces : List Coord) (x y : Nat) :
    nextPieceF b c (n + 1) pieces x y =
      if x < b.size ∧ y < b.size then
        if getCell b x y = c ∧ getCell b x y ≠ BoardCellOption.None then
          npCall b c n (npCall b c n (npCall b c n (npCall b c n
            (if (x, y) ∈ pieces then pieces else pieces ++ [(x, y)])
            (x, wsub y)) (wsub x, y)) (x + 1, y)) (x, y + 1)
        else pieces
      else pieces := rfl

theorem nextPieceF_subset (b : GoBoard) (c : BoardCellOption) :
    ∀ fuel pieces x y, ∀ a ∈ pieces, a ∈ nextPieceF b c fuel pieces x y := by
  intro fuel
  induction fuel with
  | zero => intro pieces x y a ha; exact ha
  | succ n ih =>
    intro pieces x y a ha
    rw [nextPieceF_succ]
    split
    · split
      · have hcall : ∀ (q : List Coord) (t : Coord), ∀ a ∈ q, a ∈ npCall b c n q t := by
          intro q t a' ha'
          unfold npCall
          split
          · exact ha'
          · exact ih q t.1 t.2 a' ha'
        refine hcall _ _ _ (hcall _ _ _ (hcall _ _ _ (hcall _ _ _ ?_)))
        split
        · exact ha
        · exact List.mem_append_left _ ha
      · exact ha
    · exact ha

theorem npCall_subset (b : GoBoard) (c : BoardCellOption) (n : Nat)
    (q : List Coord) (t : Coord) : ∀ a ∈ q, a ∈ npCall b c n q t := by
  intro a ha
  unfold npCall
  split
  · exact ha
  · exact nextPieceF_subset b c n q t.1 t.2 a ha

theorem nextPieceF_nodup (b : GoBoard) (c : BoardCellOption) :
    ∀ fuel pieces x y, pieces.Nodup → (nextPieceF b c fuel pieces x y).Nodup := by
  intro fuel
  induction fuel with
  | zero => intro pieces x y h; exact h
  | succ n ih =>
    intro pieces x y h
    rw [nextPieceF_succ]
    split
    · split
      · have hcall : ∀ (q : List Coord) (t : Coord), q.Nodup → (npCall b c n q t).Nodup := by
          intro q t hq
          unfold npCall
          split
          · exact hq
          · exact ih q t.1 t.2 hq
        refine hcall _ _ (hcall _ _ (hcall _ _ (hcall _ _ ?_)))
        split
        · exact h
        · next hnm => simp [List.nodup_append, h, hnm]
      · exact h
    · exact h

theorem nextPieceF_target_mem (b : GoBoard) (c : BoardCellOption) (fuel : Nat)
    (pieces : List Coord) (x y : Nat) (hfuel : fuel ≠ 0) (hq : qual b c (x, y)) :
    (x, y) ∈ nextPieceF b c fuel pieces x y := by
  obtain ⟨n, rfl⟩ : ∃ n, fuel = n + 1 := ⟨fuel - 1, by omega⟩
  rw [nextPieceF_succ]
  rw [if_pos ⟨hq.1, hq.2.1⟩, if_pos ⟨hq.2.2.1, by rw [hq.2.2.1]; exact hq.2.2.2⟩]
  refine npCall_subset _ _ _ _ _ _ (npCall_subset _ _ _ _ _ _
    (npCall_subset _ _ _ _ _ _ (npCall_subset _ _ _ _ _ _ ?_)))
  split
  · assumption
  · exact List.mem_append_right _ (List.mem_singleton_self _)

/-! ### The termination measure -/

theorem remCount_append (b : GoBoard) (pieces : List Coord) (x y : Nat)
    (hin : x < b.size ∧ y < b.size) (hnm : (x, y) ∉ pieces) :
    remCount b (pieces ++ [(x, y)]) + 1 = remCount b pieces := by
  unfold remCount
  have hset : (allCoords b.size).filter (fun p => p ∉ pieces ++ [(x, y)]) =
      ((allCoords b.size).filter (fun p => p ∉ pieces)).erase (x, y) := by
    ext p
    simp only [Finset.mem_filter, Finset.mem_erase, List.mem_append, List.mem_singleton, not_or]
    tauto
  rw [hset, Finset.card_erase_add_one]
  refine Finset.mem_filter.mpr ⟨?_, hnm⟩
  simp [allCoords, Finset.mem_product, hin.1, hin.2]

theorem remCount_le (b : GoBoard) (q r : List Coord) (h : ∀ a ∈ q, a ∈ r) :
    remCount b r ≤ remCount b q := by
  refine Finset.card_le_card (Finset.monotone_filter_right _ ?_)
  intro p hp hmem
  exact hp (h p hmem)

theorem npMeasure_call_lt (b : GoBoard) (pieces : List Coord) (x y : Nat)
    (hin : x < b.size ∧ y < b.size) (q : List Coord) (t : Coord)
    (hq : ∀ a ∈ (if (x, y) ∈ pieces then pieces else pieces ++ [(x, y)]), a ∈ q)
    (ht : t ∉ q) :
    npMeasure b q t.1 t.2 < npMeasure b pieces x y := by
  unfold npMeasure
  have hteta : ((t.1, t.2) : Coord) = t := rfl
  rw [hteta, if_neg ht]
  by_cases hxy : (x, y) ∈ pieces
  · rw [if_pos hxy]
    rw [if_pos hxy] at hq
    have := remCount_le b pieces q hq
    omega
  · rw [if_neg hxy]
    rw [if_neg hxy] at hq
    have h1 := remCount_append b pieces x y hin hxy
    have h2 := remCount_le b (pieces ++ [(x, y)]) q hq
    omega

/-! ### Stability: the fuelled flood fill reaches a fixed answer -/

theorem nextPieceF_stable (b : GoBoard) (c : BoardCellOption) :
    ∀ n pieces x y m, npMeasure b pieces x y < n → npMeasure b pieces x y < m →
      nextPieceF b c n pieces x y = nextPieceF b c m pieces x y := by
  intro n
  induction n with
  | zero => intro pieces x y m hn; exact absurd hn (Nat.not_lt_zero _)
  | succ n ih =>
    intro pieces x y m hn hm
    obtain ⟨m', rfl⟩ : ∃ m', m = m' + 1 := ⟨m - 1, by omega⟩
    rw [nextPieceF_succ, nextPieceF_succ]
    by_cases h1 : x < b.size ∧ y < b.size
    · rw [if_pos h1, if_pos h1]
      by_cases h2 : getCell b x y = c ∧ getCell b x y ≠ BoardCellOption.None
      · rw [if_pos h2, if_pos h2]
        have key : ∀ (q : List Coord) (t : Coord),
            (∀ a ∈ (if (x, y) ∈ pieces then pieces else pieces ++ [(x, y)]), a ∈ q) →
            npCall b c n q t = npCall b c m' q t := by
          intro q t hsubq
          unfold npCall
          split
          · rfl
          · next ht =>
            have hlt := npMeasure_call_lt b pieces x y h1 q t hsubq ht
            exact ih q t.1 t.2 m' (by omega) (by omega)
        have hsub0 : ∀ a ∈ (if (x, y) ∈ pieces then pieces else pieces ++ [(x, y)]),
            a ∈ (if (x, y) ∈ pieces then pieces else pieces ++ [(x, y)]) := fun a ha => ha
        rw [key _ _ hsub0]
        have hsub1 : ∀ a ∈ (if (x, y) ∈ pieces then pieces else pieces ++ [(x, y)]),
            a ∈ npCall b c m' (if (x, y) ∈ pieces then pieces else pieces ++ [(x, y)])
              (x, wsub y) := fun a ha => npCall_subset _ _ _ _ _ a ha
        rw [key _ _ hsub1]
        have hsub2 : ∀ a ∈ (if (x, y) ∈ pieces then pieces else pieces ++ [(x, y)]),
            a ∈ npCall b c m' (npCall b c m'
              (if (x, y) ∈ pieces then pieces else pieces ++ [(x, y)]) (x, wsub y))
              (wsub x, y) := fun a ha => npCall_subset _ _ _ _ _ a (hsub1 a ha)
        rw [key _ _ hsub2]
        have hsub3 : ∀ a ∈ (if (x, y) ∈ pieces then pieces else pieces ++ [(x, y)]),
            a ∈ npCall b c m' (npCall b c m' (npCall b c m'
              (if (x, y) ∈ pieces then pieces else pieces ++ [(x, y)]) (x, wsub y))
              (wsub x, y)) (x + 1, y) := fun a ha => npCall_subset _ _ _ _ _ a (hsub2 a ha)
        rw [key _ _ hsub3]
      · rw [if_neg h2, if_neg h2]
    · rw [if_neg h1, if_neg h1]

/-- The flood fill run at its canonical fuel: the total function the
source's unbounded recursion computes. -/
def npRun (b : GoBoard) (c : BoardCellOption) (pieces : List Coord) (x y : Nat) :
    List Coord :=
  nextPieceF b c (npMeasure b pieces x y + 1) pieces x y

theorem npRun_eq_nextPieceF (b : GoBoard) (c : BoardCellOption) (pieces : List Coord)
    (x y fuel : Nat) (h : npMeasure b pieces x y < fuel) :
    nextPieceF b c fuel pieces x y = npRun b c pieces x y :=
  nextPieceF_stable b c fuel pieces x y _ h (Nat.lt_succ_self _)

theorem next_piece_pieces (cl : Cluster) (b : GoBoard) (x y : Nat) :
    (cl.next_piece b x y).pieces = npRun b cl.color cl.pieces x y := rfl

theorem next_piece_color (cl : Cluster) (b : GoBoard) (x y : Nat) :
    (cl.next_piece b x y).color = cl.color := rfl

/-! ### Adjacency bookkeeping for the four targets -/

theorem wsub_succ_of_lt (n y : Nat) (hn : n ≤ USIZE_MAX) (h : wsub y < n) :
    wsub y + 1 = y := by
  by_cases hy : y = 0
  · subst hy
    rw [show wsub 0 = USIZE_MAX from rfl] at h
    exact absurd (Nat.lt_of_lt_of_le h hn) (lt_irrefl _)
  · have hws : wsub y = y - 1 := by unfold wsub; rw [if_neg hy]
    omega

theorem adj_up (x y : Nat) (h : wsub y + 1 = y) : adj (x, y) (x, wsub y) :=
  Or.inl ⟨rfl, Or.inr h⟩

theorem adj_left (x y : Nat) (h : wsub x + 1 = x) : adj (x, y) (wsub x, y) :=
  Or.inr ⟨rfl, Or.inr h⟩

theorem adj_right (x y : Nat) : adj (x, y) (x + 1, y) :=
  Or.inr ⟨rfl, Or.inl rfl⟩

theorem adj_down (x y : Nat) : adj (x, y) (x, y + 1) :=
  Or.inl ⟨rfl, Or.inl rfl⟩

theorem adj_mem_targets (x y : Nat) (t : Coord) (h : adj (x, y) t) :
    t = (x, wsub y) ∨ t = (wsub x, y) ∨ t = (x + 1, y) ∨ t = (x, y + 1) := by
  obtain ⟨tx, ty⟩ := t
  simp only [adj] at h
  simp only [Prod.mk.injEq]
  rcases h with ⟨h1, h2 | h2⟩ | ⟨h1, h2 | h2⟩
  · right; right; right; exact ⟨h1.symm, h2.symm⟩
  · left
    refine ⟨h1.symm, ?_⟩
    unfold wsub
    split
    · omega
    · omega
  · right; right; left; exact ⟨h2.symm, h1.symm⟩
  · right; left
    refine ⟨?_, h1.symm⟩
    unfold wsub
    split
    · omega
    · omega

/-! ### Soundness: the flood fill only collects the seed's component -/

theorem nextPieceF_sound (b : GoBoard) (c : BoardCellOption) (R : Coord → Prop)
    (hs : b.size ≤ USIZE_MAX)
    (hR : ∀ p q, R p → adj p q → qual b c q → R q) :
    ∀ fuel pieces x y, (∀ a ∈ pieces, R a) → (qual b c (x, y) → R (x, y)) →
      ∀ a ∈ nextPieceF b c fuel pieces x y, R a := by
  intro fuel
  induction fuel with
  | zero => intro pieces x y hp _ a ha; exact hp a ha
  | succ n ih =>
    intro pieces x y hp hxy a ha
    rw [nextPieceF_succ] at ha
    by_cases h1 : x < b.size ∧ y < b.size
    · rw [if_pos h1] at ha
      by_cases h2 : getCell b x y = c ∧ getCell b x y ≠ BoardCellOption.None
      · rw [if_pos h2] at ha
        have hqxy : qual b c (x, y) := ⟨h1.1, h1.2, h2.1, by rw [← h2.1]; exact h2.2⟩
        have hRxy : R (x, y) := hxy hqxy
        have hp0 : ∀ a ∈ (if (x, y) ∈ pieces then pieces else pieces ++ [(x, y)]), R a := by
          intro a ha'
          split at ha'
          · exact hp a ha'
          · rcases List.mem_append.mp ha' with h | h
            · exact hp a h
            · rw [List.mem_singleton.mp h]; exact hRxy
        have htgt : ∀ t : Coord, adj (x, y) t → qual b c t → R t :=
          fun t hadj hq => hR (x, y) t hRxy hadj hq
        have hcall : ∀ (q : List Coord) (t : Coord), (∀ a ∈ q, R a) →
            (qual b c t → R t) → ∀ a ∈ npCall b c n q t, R a := by
          intro q t hq ht a ha'
          unfold npCall at ha'
          split at ha'
          · exact hq a ha'
          · exact ih q t.1 t.2 hq ht a ha'
        have ht1 : qual b c (x, wsub y) → R (x, wsub y) := fun hq =>
          htgt _ (adj_up x y (wsub_succ_of_lt b.size y hs hq.2.1)) hq
        have ht2 : qual b c (wsub x, y) → R (wsub x, y) := fun hq =>
          htgt _ (adj_left x y (wsub_succ_of_lt b.size x hs hq.1)) hq
        have ht3 : qual b c (x + 1, y) → R (x + 1, y) := fun hq =>
          htgt _ (adj_right x y) hq
        have ht4 : qual b c (x, y + 1) → R (x, y + 1) := fun hq =>
          htgt _ (adj_down x y) hq
        exact hcall _ _ (hcall _ _ (hcall _ _ (hcall _ _ hp0 ht1) ht2) ht3) ht4 a ha
      · rw [if_neg h2] at ha; exact hp a ha
    · rw [if_neg h1] at ha; exact hp a ha

/-! ### Closure: the flood fill explores all neighbours of what it adds -/

theorem nextPieceF_closure (b : GoBoard) (c : BoardCellOption) :
    ∀ fuel pieces x y, npMeasure b pieces x y < fuel →
      ∀ a ∈ nextPieceF b c fuel pieces x y, a ∈ pieces ∨
        (qual b c a ∧ ∀ t, adj a t → qual b c t →
          t ∈ nextPieceF b c fuel pieces x y) := by
  intro fuel
  induction fuel with
  | zero => intro pieces x y h; exact absurd h (Nat.not_lt_zero _)
  | succ n ih =>
    intro pieces x y hmu a ha
    by_cases h1 : x < b.size ∧ y < b.size
    case neg =>
      rw [nextPieceF_succ, if_neg h1] at ha
      exact Or.inl ha
    by_cases h2 : getCell b x y = c ∧ getCell b x y ≠ BoardCellOption.None
    case neg =>
      rw [nextPieceF_succ, if_pos h1, if_neg h2] at ha
      exact Or.inl ha
    rw [nextPieceF_succ, if_pos h1, if_pos h2] at ha ⊢
    set p0 := (if (x, y) ∈ pieces then pieces else pieces ++ [(x, y)]) with hp0
    set q1 := npCall b c n p0 (x, wsub y) with hq1
    set q2 := npCall b c n q1 (wsub x, y) with hq2
    set q3 := npCall b c n q2 (x + 1, y) with hq3
    set q4 := npCall b c n q3 (x, y + 1) with hq4
    have hsub01 : ∀ a ∈ p0, a ∈ q1 := fun a h => npCall_subset b c n p0 _ a h
    have hsub02 : ∀ a ∈ p0, a ∈ q2 := fun a h => npCall_subset b c n q1 _ a (hsub01 a h)
    have hsub03 : ∀ a ∈ p0, a ∈ q3 := fun a h => npCall_subset b c n q2 _ a (hsub02 a h)
    have hsub14 : ∀ a ∈ q1, a ∈ q4 := fun a h =>
      npCall_subset b c n q3 _ a (npCall_subset b c n q2 _ a (npCall_subset b c n q1 _ a h))
    have hsub24 : ∀ a ∈ q2, a ∈ q4 := fun a h =>
      npCall_subset b c n q3 _ a (npCall_subset b c n q2 _ a h)
    have hsub34 : ∀ a ∈ q3, a ∈ q4 := fun a h => npCall_subset b c n q3 _ a h
    have hstep : ∀ (q : List Coord) (t : Coord), (∀ a ∈ p0, a ∈ q) →
        ∀ a ∈ npCall b c n q t, a ∈ q ∨
          (qual b c a ∧ ∀ u, adj a u → qual b c u → u ∈ npCall b c n q t) := by
      intro q t hsub a' ha'
      by_cases htq : t ∈ q
      · rw [npCall, if_pos htq] at ha'
        exact Or.inl ha'
      · rw [npCall, if_neg htq] at ha' ⊢
        have hlt := npMeasure_call_lt b pieces x y h1 q t (hp0 ▸ hsub) htq
        exact ih q t.1 t.2 (by omega) a' ha'
    have htarget : ∀ (q : List Coord) (t : Coord), (∀ a ∈ p0, a ∈ q) →
        qual b c t → t ∈ npCall b c n q t := by
      intro q t hsub hqt
      by_cases htq : t ∈ q
      · rw [npCall, if_pos htq]; exact htq
      · rw [npCall, if_neg htq]
        have hlt := npMeasure_call_lt b pieces x y h1 q t (hp0 ▸ hsub) htq
        exact nextPieceF_target_mem b c n q t.1 t.2 (by omega) hqt
    rcases hstep q3 _ hsub03 a ha with h3 | ⟨hqa, hcl⟩
    · rcases hstep q2 _ hsub02 a h3 with h2' | ⟨hqa, hcl⟩
      · rcases hstep q1 _ hsub01 a h2' with h1' | ⟨hqa, hcl⟩
        · rcases hstep p0 _ (fun a h => h) a h1' with h0 | ⟨hqa, hcl⟩
          · rw [hp0] at h0
            by_cases hxyp : (x, y) ∈ pieces
            · rw [if_pos hxyp] at h0
              exact Or.inl h0
            · rw [if_neg hxyp] at h0
              rcases List.mem_append.mp h0 with h | h
              · exact Or.inl h
              · have ha_eq : a = (x, y) := List.mem_singleton.mp h
                subst ha_eq
                have hqxy : qual b c (x, y) :=
                  ⟨h1.1, h1.2, h2.1, by rw [← h2.1]; exact h2.2⟩
                refine Or.inr ⟨hqxy, ?_⟩
                intro t ht hq
                rcases adj_mem_targets x y t ht with rfl | rfl | rfl | rfl
                · exact hsub14 _ (htarget p0 _ (fun a h => h) hq)
                · exact hsub24 _ (htarget q1 _ hsub01 hq)
                · exact hsub34 _ (htarget q2 _ hsub02 hq)
                · exact htarget q3 _ hsub03 hq
          · exact Or.inr ⟨hqa, fun t ht hq => hsub14 _ (hcl t ht hq)⟩
        · exact Or.inr ⟨hqa, fun t ht hq => hsub24 _ (hcl t ht hq)⟩
      · exact Or.inr ⟨hqa, fun t ht hq => hsub34 _ (hcl t ht hq)⟩
    · exact Or.inr ⟨hqa, fun t ht hq => hcl t ht hq⟩

/-! ### The flood fill at canonical fuel -/

theorem npRun_subset (b : GoBoard) (c : BoardCellOption) (pieces : List Coord)
    (x y : Nat) : ∀ a ∈ pieces, a ∈ npRun b c pieces x y :=
  nextPieceF_subset b c _ pieces x y

theorem npRun_nodup (b : GoBoard) (c : BoardCellOption) (pieces : List Coord)
    (x y : Nat) (h : pieces.Nodup) : (npRun b c pieces x y).Nodup :=
  nextPieceF_nodup b c _ pieces x y h

theorem npRun_target_mem (b : GoBoard) (c : BoardCellOption) (pieces : List Coord)
    (x y : Nat) (hq : qual b c (x, y)) : (x, y) ∈ npRun b c pieces x y :=
  nextPieceF_target_mem b c _ pieces x y (Nat.succ_ne_zero _) hq

theorem npRun_sound (b : GoBoard) (c : BoardCellOption) (R : Coord → Prop)
    (hs : b.size ≤ USIZE_MAX)
    (hR : ∀ p q, R p → adj p q → qual b c q → R q)
    (pieces : List Coord) (x y : Nat)
    (hp : ∀ a ∈ pieces, R a) (hxy : qual b c (x, y) → R (x, y)) :
    ∀ a ∈ npRun b c pieces x y, R a :=
  nextPieceF_sound b c R hs hR _ pieces x y hp hxy

theorem npRun_closure (b : GoBoard) (c : BoardCellOption) (pieces : List Coord)
    (x y : Nat) :
    ∀ a ∈ npRun b c pieces x y, a ∈ pieces ∨
      (qual b c a ∧ ∀ t, adj a t → qual b c t → t ∈ npRun b c pieces x y) :=
  nextPieceF_closure b c _ pieces x y (Nat.lt_succ_self _)

/-! ### `Cluster::from` computes the same-colour component of its seed -/

theorem from'_color (b : GoBoard) (x y : Nat) :
    (Cluster.from' b x y).color = getCell b x y := rfl

theorem from'_pieces (b : GoBoard) (x y : Nat) :
    (Cluster.from' b x y).pieces =
      npRun b (getCell b x y)
        (npRun b (getCell b x y)
          (npRun b (getCell b x y)
            (npRun b (getCell b x y) [(x, y)] x (wsub y)) (wsub x) y) (x + 1) y)
        x (y + 1) := rfl

theorem from'_nodup (b : GoBoard) (x y : Nat) :
    (Cluster.from' b x y).pieces.Nodup := by
  rw [from'_pieces]
  exact npRun_nodup _ _ _ _ _ (npRun_nodup _ _ _ _ _ (npRun_nodup _ _ _ _ _
    (npRun_nodup _ _ _ _ _ (List.nodup_singleton _))))

theorem from'_seed_mem (b : GoBoard) (x y : Nat) :
    (x, y) ∈ (Cluster.from' b x y).pieces := by
  rw [from'_pieces]
  exact npRun_subset _ _ _ _ _ _ (npRun_subset _ _ _ _ _ _ (npRun_subset _ _ _ _ _ _
    (npRun_subset _ _ _ _ _ _ (List.mem_singleton_self _))))

theorem from'_sound (b : GoBoard) (x y : Nat) (hs : b.size ≤ USIZE_MAX) :
    ∀ a ∈ (Cluster.from' b x y).pieces,
      Relation.ReflTransGen (stepRel b (getCell b x y)) (x, y) a := by
  rw [from'_pieces]
  set c := getCell b x y with hc
  set R : Coord → Prop :=
    fun p => Relation.ReflTransGen (stepRel b c) (x, y) p with hR
  have hRstep : ∀ p q, R p → adj p q → qual b c q → R q :=
    fun p q hp hadj hq => Relation.ReflTransGen.tail hp ⟨hadj, hq⟩
  have hR0 : R (x, y) := Relation.ReflTransGen.refl
  have h0 : ∀ a ∈ ([(x, y)] : List Coord), R a := by
    intro a ha
    have ha' := List.mem_singleton.mp ha
    subst ha'
    exact hR0
  have h1 := npRun_sound b c R hs hRstep [(x, y)] x (wsub y) h0
    (fun hq => hRstep _ _ hR0 (adj_up x y (wsub_succ_of_lt b.size y hs hq.2.1)) hq)
  have h2 := npRun_sound b c R hs hRstep _ (wsub x) y h1
    (fun hq => hRstep _ _ hR0 (adj_left x y (wsub_succ_of_lt b.size x hs hq.1)) hq)
  have h3 := npRun_sound b c R hs hRstep _ (x + 1) y h2
    (fun hq => hRstep _ _ hR0 (adj_right x y) hq)
  exact npRun_sound b c R hs hRstep _ x (y + 1) h3
    (fun hq => hRstep _ _ hR0 (adj_down x y) hq)

theorem from'_seed_nbrs (b : GoBoard) (x y : Nat) :
    ∀ t, adj (x, y) t → qual b (getCell b x y) t →
      t ∈ (Cluster.from' b x y).pieces := by
  intro t ht hq
  rw [from'_pieces]
  set c := getCell b x y with hc
  rcases adj_mem_targets x y t ht with rfl | rfl | rfl | rfl
  · exact npRun_subset _ _ _ _ _ _ (npRun_subset _ _ _ _ _ _ (npRun_subset _ _ _ _ _ _
      (npRun_target_mem b c [(x, y)] x (wsub y) hq)))
  · exact npRun_subset _ _ _ _ _ _ (npRun_subset _ _ _ _ _ _
      (npRun_target_mem b c _ (wsub x) y hq))
  · exact npRun_subset _ _ _ _ _ _ (npRun_target_mem b c _ (x + 1) y hq)
  · exact npRun_target_mem b c _ x (y + 1) hq

theorem from'_mem_cases (b : GoBoard) (x y : Nat) :
    ∀ a ∈ (Cluster.from' b x y).pieces, a = (x, y) ∨
      (qual b (getCell b x y) a ∧ ∀ t, adj a t → qual b (getCell b x y) t →
        t ∈ (Cluster.from' b x y).pieces) := by
  intro a ha
  rw [from'_pieces] at ha ⊢
  set c := getCell b x y with hc
  set r1 := npRun b c [(x, y)] x (wsub y) with hr1
  set r2 := npRun b c r1 (wsub x) y with hr2
  set r3 := npRun b c r2 (x + 1) y with hr3
  set r4 := npRun b c r3 x (y + 1) with hr4
  have hsub14 : ∀ a ∈ r1, a ∈ r4 := fun a h =>
    npRun_subset _ _ _ _ _ a (npRun_subset _ _ _ _ _ a (npRun_subset _ _ _ _ _ a h))
  have hsub24 : ∀ a ∈ r2, a ∈ r4 := fun a h =>
    npRun_subset _ _ _ _ _ a (npRun_subset _ _ _ _ _ a h)
  have hsub34 : ∀ a ∈ r3, a ∈ r4 := fun a h => npRun_subset _ _ _ _ _ a h
  rcases npRun_closure b c r3 x (y + 1) a ha with h3 | ⟨hqa, hcl⟩
  · rcases npRun_closure b c r2 (x + 1) y a h3 with h2' | ⟨hqa, hcl⟩
    · rcases npRun_closure b c r1 (wsub x) y a h2' with h1' | ⟨hqa, hcl⟩
      · rcases npRun_closure b c [(x, y)] x (wsub y) a h1' with h0 | ⟨hqa, hcl⟩
        · exact Or.inl (List.mem_singleton.mp h0)
        · exact Or.inr ⟨hqa, fun t ht hq => hsub14 _ (hcl t ht hq)⟩
      · exact Or.inr ⟨hqa, fun t ht hq => hsub24 _ (hcl t ht hq)⟩
    · exact Or.inr ⟨hqa, fun t ht hq => hsub34 _ (hcl t ht hq)⟩
  · exact Or.inr ⟨hqa, hcl⟩

theorem from'_complete (b : GoBoard) (x y : Nat) :
    ∀ p : Coord, Relation.ReflTransGen (stepRel b (getCell b x y)) (x, y) p →
      p ∈ (Cluster.from' b x y).pieces := by
  intro p hp
  induction hp with
  | refl => exact from'_seed_mem b x y
  | tail hsp hstep ih =>
    rcases from'_mem_cases b x y _ ih with heq | ⟨hqa, hcl⟩
    · subst heq
      exact from'_seed_nbrs b x y _ hstep.1 hstep.2
    · exact hcl _ hstep.1 hstep.2

theorem from'_mem_iff (b : GoBoard) (x y : Nat) (hs : b.size ≤ USIZE_MAX) :
    ∀ p : Coord, p ∈ (Cluster.from' b x y).pieces ↔
      p ∈ sameColorComponent b (x, y) := by
  intro p
  constructor
  · exact from'_sound b x y hs p
  · exact from'_complete b x y p

/-! ### Counter bookkeeping of `clear_cluster` -/

theorem counterBump_board (b : GoBoard) (c : Cluster) :
    (counterBump b c).board = b.board := by
  unfold counterBump
  cases c.color <;> rfl

theorem counterBump_size (b : GoBoard) (c : Cluster) :
    (counterBump b c).size = b.size := by
  unfold counterBump
  cases c.color <;> rfl

theorem getCell_counterBump (b : GoBoard) (c : Cluster) (x y : Nat) :
    getCell (counterBump b c) x y = getCell b x y := by
  unfold getCell
  rw [counterBump_board]

theorem counterBump_WF (b : GoBoard) (c : Cluster) (hWF : WF b) :
    WF (counterBump b c) := by
  unfold WF at *
  rw [counterBump_board, counterBump_size]
  exact hWF

/-! ### Concrete boards used to witness the hypotheses of the theorems -/

/-- A 2×2 board holding two Black stones at `(0,0)` and `(1,0)`. -/
def bEx2 : GoBoard :=
  { size := 2
    board := [[BoardCellOption.Black, BoardCellOption.Black],
              [BoardCellOption.None, BoardCellOption.None]]
    captured_black := 0
    captured_white := 0 }

/-- C1: For every well-formed board and every in-bounds seed whose cell is
not Empty, `Cluster::from` returns exactly the maximal orthogonally-connected
component of cells of the seed's colour containing the seed, with no
duplicate coordinates, and with the cluster's colour equal to the seed
cell's colour. -/
theorem C1_cluster_from_component (b : GoBoard) (x y : Nat) (hWF : WF b)
    (_hx : x < b.size) (_hy : y < b.size)
    (_hne : getCell b x y ≠ BoardCellOption.None) :
    (Cluster.from' b x y).color = getCell b x y ∧
    (Cluster.from' b x y).pieces.Nodup ∧
    ∀ p : Coord, p ∈ (Cluster.from' b x y).pieces ↔
      p ∈ sameColorComponent b (x, y) :=
  ⟨from'_color b x y, from'_nodup b x y, from'_mem_iff b x y hWF.1⟩

/-- Witness for C1 at a concrete board and seed. -/
theorem C1_witness :
    WF bEx2 ∧ 0 < bEx2.size ∧ 0 < bEx2.size ∧
    getCell bEx2 0 0 ≠ BoardCellOption.None ∧
    ((Cluster.from' bEx2 0 0).color = getCell bEx2 0 0 ∧
     (Cluster.from' bEx2 0 0).pieces.Nodup ∧
     ∀ p : Coord, p ∈ (Cluster.from' bEx2 0 0).pieces ↔
       p ∈ sameColorComponent bEx2 (0, 0)) :=
  ⟨by decide, by decide, by decide, by decide,
   C1_cluster_from_component bEx2 0 0 (by decide) (by decide) (by decide) (by decide)⟩

/-- C2: removing a Black or White cluster sets every member cell to Empty,
credits the opposite colour's capture counter with exactly the member
count, and leaves the other counter and every non-member cell unchanged. -/
theorem C2_clear_cluster_spec (b : GoBoard) (c : Cluster) (hWF : WF b)
    (hin : ∀ p ∈ c.pieces, p.1 < b.size ∧ p.2 < b.size)
    (_hnd : c.pieces.Nodup)
    (_hcol : c.color = BoardCellOption.Black ∨ c.color = BoardCellOption.White) :
    (∀ p ∈ c.pieces, getCell (b.clear_cluster c) p.1 p.2 = BoardCellOption.None) ∧
    (∀ x y, x < b.size → y < b.size → (x, y) ∉ c.pieces →
      getCell (b.clear_cluster c) x y = getCell b x y) ∧
    (c.color = BoardCellOption.Black →
      (b.clear_cluster c).captured_white = b.captured_white + c.pieces.length ∧
      (b.clear_cluster c).captured_black = b.captured_black) ∧
    (c.color = BoardCellOption.White →
      (b.clear_cluster c).captured_black = b.captured_black + c.pieces.length ∧
      (b.clear_cluster c).captured_white = b.captured_white) := by
  rw [clear_cluster_eq]
  have hWF' : WF (counterBump b c) := counterBump_WF b c hWF
  have hin' : ∀ p ∈ c.pieces, p.1 < (counterBump b c).size ∧ p.2 < (counterBump b c).size := by
    intro p hp
    rw [counterBump_size]
    exact hin p hp
  refine ⟨?_, ?_, ?_, ?_⟩
  · intro p hp
    have := getCell_clearWrites_mem c.pieces (counterBump b c) p.1 p.2 hWF' hin'
      (by simpa using hp)
    exact this
  · intro x y _ _ hnm
    rw [getCell_clearWrites_not_mem _ _ _ _ hnm, getCell_counterBump]
  · intro hB
    rw [clearWrites_captured_white, clearWrites_captured_black]
    unfold counterBump
    rw [hB]
    exact ⟨rfl, rfl⟩
  · intro hW
    rw [clearWrites_captured_black, clearWrites_captured_white]
    unfold counterBump
    rw [hW]
    exact ⟨rfl, rfl⟩

/-- Witness for C2: clearing the two-stone Black cluster on `bEx2`. -/
theorem C2_witness :
    WF bEx2 ∧
    (∀ p ∈ ([((0 : Nat), (0 : Nat)), (1, 0)] : List Coord),
      p.1 < bEx2.size ∧ p.2 < bEx2.size) ∧
    ([((0 : Nat), (0 : Nat)), (1, 0)] : List Coord).Nodup ∧
    (∀ p ∈ (Cluster.mk [(0, 0), (1, 0)] BoardCellOption.Black).pieces,
      getCell (bEx2.clear_cluster (Cluster.mk [(0, 0), (1, 0)] BoardCellOption.Black))
        p.1 p.2 = BoardCellOption.None) ∧
    (bEx2.clear_cluster (Cluster.mk [(0, 0), (1, 0)] BoardCellOption.Black)).captured_white
      = bEx2.captured_white + 2 :=
  ⟨by decide, by decide, by decide,
   (C2_clear_cluster_spec bEx2 (Cluster.mk [(0, 0), (1, 0)] BoardCellOption.Black)
     (by decide) (by decide) (by decide) (Or.inl rfl)).1,
   ((C2_clear_cluster_spec bEx2 (Cluster.mk [(0, 0), (1, 0)] BoardCellOption.Black)
     (by decide) (by decide) (by decide) (Or.inl rfl)).2.2.1 rfl).1⟩

/-! ### Scenario boards for the 3×3 surround capture -/

/-- 3×3 board after placing Black at `(0,1)`, `(2,1)`, `(1,0)` and White at
`(1,1)`. -/
def boardC3 : GoBoard :=
  ((((GoBoard.new 3).set 0 1 BoardCellOption.Black).set 2 1
    BoardCellOption.Black).set 1 0 BoardCellOption.Black).set 1 1
    BoardCellOption.White

/-- `boardC3` after Black completes the surround at `(1,2)`. -/
def boardC3' : GoBoard := boardC3.set 1 2 BoardCellOption.Black

/-- C3: on the 3×3 board with Black at `(0,1)`, `(2,1)`, `(1,0)` and White
at `(1,1)`, placing Black at `(1,2)` empties `(1,1)`, increments
`captured_black` by exactly one, leaves `captured_white` unchanged, and
keeps all four Black stones on the board. -/
theorem C3_surround_captures_white :
    getCell boardC3 0 1 = BoardCellOption.Black ∧
    getCell boardC3 2 1 = BoardCellOption.Black ∧
    getCell boardC3 1 0 = BoardCellOption.Black ∧
    getCell boardC3 1 1 = BoardCellOption.White ∧
    boardC3.captured_black = 0 ∧ boardC3.captured_white = 0 ∧
    getCell boardC3' 1 1 = BoardCellOption.None ∧
    boardC3'.captured_black = boardC3.captured_black + 1 ∧
    boardC3'.captured_white = boardC3.captured_white ∧
    getCell boardC3' 0 1 = BoardCellOption.Black ∧
    getCell boardC3' 2 1 = BoardCellOption.Black ∧
    getCell boardC3' 1 0 = BoardCellOption.Black ∧
    getCell boardC3' 1 2 = BoardCellOption.Black := by
  decide

/-- C4: a placement with either coordinate out of range is a silent no-op:
the whole board value, grid and both capture counters included, is
unchanged. -/
theorem C4_out_of_bounds_noop (b : GoBoard) (x y : Nat) (piece : BoardCellOption)
    (h : b.size ≤ x ∨ b.size ≤ y) : b.set x y piece = b := by
  unfold GoBoard.set
  rw [if_neg]
  rintro ⟨hx, hy⟩
  rcases h with h | h <;> omega

/-- Witness for C4: placing far outside a 2×2 board changes nothing. -/
theorem C4_witness :
    (bEx2.size ≤ 7 ∨ bEx2.size ≤ 0) ∧ bEx2.set 7 0 BoardCellOption.White = bEx2 :=
  ⟨Or.inl (by decide), C4_out_of_bounds_noop bEx2 7 0 BoardCellOption.White
    (Or.inl (by decide))⟩

/-! ### Capture counters never decrease -/

theorem clear_cluster_captured_black_le (b : GoBoard) (c : Cluster) :
    b.captured_black ≤ (b.clear_cluster c).captured_black := by
  rw [clear_cluster_eq, clearWrites_captured_black]
  unfold counterBump
  cases c.color
  · exact Nat.le_refl _
  · exact Nat.le_add_right _ _
  · exact Nat.le_refl _

theorem clear_cluster_captured_white_le (b : GoBoard) (c : Cluster) :
    b.captured_white ≤ (b.clear_cluster c).captured_white := by
  rw [clear_cluster_eq, clearWrites_captured_white]
  unfold counterBump
  cases c.color
  · exact Nat.le_add_right _ _
  · exact Nat.le_refl _
  · exact Nat.le_refl _

theorem clusterStep_eq (b : GoBoard) (x y : Nat) :
    clusterStep b x y =
      if (Cluster.from' b x y).has_liberties b then b
      else b.clear_cluster (Cluster.from' b x y) := rfl

theorem clusterStep_captured_black_le (b : GoBoard) (x y : Nat) :
    b.captured_black ≤ (clusterStep b x y).captured_black := by
  rw [clusterStep_eq]
  split
  · exact Nat.le_refl _
  · exact clear_cluster_captured_black_le _ _

theorem clusterStep_captured_white_le (b : GoBoard) (x y : Nat) :
    b.captured_white ≤ (clusterStep b x y).captured_white := by
  rw [clusterStep_eq]
  split
  · exact Nat.le_refl _
  · exact clear_cluster_captured_white_le _ _

theorem ite_clusterStep_captured_black_le (b : GoBoard) (c : Prop) [Decidable c]
    (x y : Nat) :
    b.captured_black ≤ (if c then clusterStep b x y else b).captured_black := by
  split
  · exact clusterStep_captured_black_le b x y
  · exact Nat.le_refl _

theorem ite_clusterStep_captured_white_le (b : GoBoard) (c : Prop) [Decidable c]
    (x y : Nat) :
    b.captured_white ≤ (if c then clusterStep b x y else b).captured_white := by
  split
  · exact clusterStep_captured_white_le b x y
  · exact Nat.le_refl _

theorem update_captured_black_le (b : GoBoard) (x y : Nat) :
    b.captured_black ≤ (b.update x y).captured_black := by
  simp only [GoBoard.update]
  refine Nat.le_trans ?_ (ite_clusterStep_captured_black_le _ _ x (y + 1))
  refine Nat.le_trans ?_ (ite_clusterStep_captured_black_le _ _ x (wsub y))
  refine Nat.le_trans ?_ (ite_clusterStep_captured_black_le _ _ (x + 1) y)
  refine Nat.le_trans ?_ (ite_clusterStep_captured_black_le _ _ (wsub x) y)
  exact clusterStep_captured_black_le b x y

theorem update_captured_white_le (b : GoBoard) (x y : Nat) :
    b.captured_white ≤ (b.update x y).captured_white := by
  simp only [GoBoard.update]
  refine Nat.le_trans ?_ (ite_clusterStep_captured_white_le _ _ x (y + 1))
  refine Nat.le_trans ?_ (ite_clusterStep_captured_white_le _ _ x (wsub y))
  refine Nat.le_trans ?_ (ite_clusterStep_captured_white_le _ _ (x + 1) y)
  refine Nat.le_trans ?_ (ite_clusterStep_captured_white_le _ _ (wsub x) y)
  exact clusterStep_captured_white_le b x y

theorem set_captured_black_le (b : GoBoard) (x y : Nat) (piece : BoardCellOption) :
    b.captured_black ≤ (b.set x y piece).captured_black := by
  unfold GoBoard.set
  split
  · exact update_captured_black_le (writeCell b x y piece) x y
  · exact Nat.le_refl _

theorem set_captured_white_le (b : GoBoard) (x y : Nat) (piece : BoardCellOption) :
    b.captured_white ≤ (b.set x y piece).captured_white := by
  unfold GoBoard.set
  split
  · exact update_captured_white_le (writeCell b x y piece) x y
  · exact Nat.le_refl _

/-- A whole session: apply a list of placements in order. -/
def applyMoves (b : GoBoard) (ms : List (Nat × Nat × BoardCellOption)) : GoBoard :=
  ms.foldl (fun acc m => acc.set m.1 m.2.1 m.2.2) b

theorem applyMoves_captured_le (b : GoBoard) (ms : List (Nat × Nat × BoardCellOption)) :
    b.captured_black ≤ (applyMoves b ms).captured_black ∧
    b.captured_white ≤ (applyMoves b ms).captured_white := by
  induction ms generalizing b with
  | nil => exact ⟨Nat.le_refl _, Nat.le_refl _⟩
  | cons m rest ih =>
    have hstep : applyMoves b (m :: rest) = applyMoves (b.set m.1 m.2.1 m.2.2) rest := rfl
    rw [hstep]
    obtain ⟨ihb, ihw⟩ := ih (b.set m.1 m.2.1 m.2.2)
    exact ⟨Nat.le_trans (set_captured_black_le b m.1 m.2.1 m.2.2) ihb,
      Nat.le_trans (set_captured_white_le b m.1 m.2.1 m.2.2) ihw⟩

/-- C5: a single `set` never decreases either capture counter, and hence
both counters are monotonically non-decreasing across any sequence of
placements. -/
theorem C5_counters_monotone (b : GoBoard) (x y : Nat) (piece : BoardCellOption) :
    b.captured_black ≤ (b.set x y piece).captured_black ∧
    b.captured_white ≤ (b.set x y piece).captured_white ∧
    ∀ ms : List (Nat × Nat × BoardCellOption),
      b.captured_black ≤ (applyMoves b ms).captured_black ∧
      b.captured_white ≤ (applyMoves b ms).captured_white :=
  ⟨set_captured_black_le b x y piece, set_captured_white_le b x y piece,
   fun ms => applyMoves_captured_le b ms⟩

/-! ### C6: Empty seeds do reach `Cluster::from` -/

theorem list_set_getD_self {α : Type} (l : List α) (n : Nat) (d : α) :
    l.set n (l.getD n d) = l := by
  induction l generalizing n with
  | nil => rfl
  | cons a t ih =>
    cases n with
    | zero => rfl
    | succ m =>
      show a :: t.set m (t.getD m d) = a :: t
      rw [ih m]

theorem writeCell_noop (b : GoBoard) (x y : Nat)
    (h : getCell b x y = BoardCellOption.None) :
    writeCell b x y BoardCellOption.None = b := by
  have h' : (b.board.getD y []).getD x BoardCellOption.None = BoardCellOption.None := h
  have h1 := list_set_getD_self (b.board.getD y []) x BoardCellOption.None
  rw [h'] at h1
  show { b with board := b.board.set y ((b.board.getD y []).set x BoardCellOption.None) } = b
  rw [h1, list_set_getD_self b.board y []]

/-- The flood fill for colour Empty collects nothing: the colour test
`board[y][x] == self.color && board[y][x] != None` can never pass. -/
theorem npRun_none_color (b : GoBoard) (q : List Coord) (tx ty : Nat) :
    npRun b BoardCellOption.None q tx ty = q := by
  unfold npRun
  rw [nextPieceF_succ]
  split
  · rw [if_neg]
    rintro ⟨h1, h2⟩
    exact h2 h1
  · rfl

/-- Instrumented replay of `GoBoard::update`, true iff one of its five
`Cluster::from` invocations receives a seed coordinate whose cell is Empty
at the moment of the call (same call order and guards as the source). -/
def updateSeedEmpty (b : GoBoard) (x y : Nat) : Bool :=
  let e0 := decide (getCell b x y = BoardCellOption.None)
  let b0 := clusterStep b x y
  let e1 := decide (wsub x < b0.size) &&
    decide (getCell b0 (wsub x) y = BoardCellOption.None)
  let b1 := if wsub x < b0.size then clusterStep b0 (wsub x) y else b0
  let e2 := decide (x + 1 < b1.size) &&
    decide (getCell b1 (x + 1) y = BoardCellOption.None)
  let b2 := if x + 1 < b1.size then clusterStep b1 (x + 1) y else b1
  let e3 := decide (wsub y < b2.size) &&
    decide (getCell b2 x (wsub y) = BoardCellOption.None)
  let b3 := if wsub y < b2.size then clusterStep b2 x (wsub y) else b2
  let e4 := decide (y + 1 < b3.size) &&
    decide (getCell b3 x (y + 1) = BoardCellOption.None)
  e0 || e1 || e2 || e3 || e4

/-- Instrumented replay of `GoBoard::set`: true iff the placement leads to
some `Cluster::from` call on an Empty cell. -/
def setSeedEmpty (b : GoBoard) (x y : Nat) (piece : BoardCellOption) : Bool :=
  if x < b.size ∧ y < b.size then updateSeedEmpty (writeCell b x y piece) x y
  else false

/-- Counterexample to C6: placing Black at `(0,0)` of an empty 2×2 board
invokes `Cluster::from` on the Empty neighbour `(1,0)`. -/
theorem C6_counterexample : setSeedEmpty (GoBoard.new 2) 0 0 BoardCellOption.Black = true := by
  decide

/-- C6 (amended): `Cluster::from` is invoked on Empty coordinates during
`set` (the four in-bounds neighbours are seeded unconditionally, and
placing Empty seeds the placed cell itself), but an Empty-seeded cluster is
harmless: it consists of exactly its seed, has colour Empty, and clearing
it changes neither the grid nor either capture counter. -/
theorem C6_empty_seed_harmless (b : GoBoard) (x y : Nat)
    (he : getCell b x y = BoardCellOption.None) :
    (∃ b₀ x₀ y₀ piece, setSeedEmpty b₀ x₀ y₀ piece = true) ∧
    (Cluster.from' b x y).pieces = [(x, y)] ∧
    (Cluster.from' b x y).color = BoardCellOption.None ∧
    b.clear_cluster (Cluster.from' b x y) = b := by
  have hpieces : (Cluster.from' b x y).pieces = [(x, y)] := by
    rw [from'_pieces, he, npRun_none_color, npRun_none_color, npRun_none_color,
      npRun_none_color]
  have hcolor : (Cluster.from' b x y).color = BoardCellOption.None := by
    rw [from'_color]; exact he
  refine ⟨⟨GoBoard.new 2, 0, 0, BoardCellOption.Black, by decide⟩, hpieces, hcolor, ?_⟩
  rw [clear_cluster_eq]
  have hbump : counterBump b (Cluster.from' b x y) = b := by
    unfold counterBump
    rw [hcolor]
  rw [hbump, hpieces, clearWrites_cons, clearWrites_nil]
  exact writeCell_noop b x y he

/-- Witness for C6 (amended) at a concrete Empty cell. -/
theorem C6_witness :
    getCell (GoBoard.new 2) 0 0 = BoardCellOption.None ∧
    ((∃ b₀ x₀ y₀ piece, setSeedEmpty b₀ x₀ y₀ piece = true) ∧
     (Cluster.from' (GoBoard.new 2) 0 0).pieces = [(0, 0)] ∧
     (Cluster.from' (GoBoard.new 2) 0 0).color = BoardCellOption.None ∧
     (GoBoard.new 2).clear_cluster (Cluster.from' (GoBoard.new 2) 0 0) = GoBoard.new 2) :=
  ⟨by decide, C6_empty_seed_harmless (GoBoard.new 2) 0 0 (by decide)⟩

/-- C8: the recursive flood fill terminates on every board size and
configuration: past the termination measure, the amount of fuel is
irrelevant, so `Cluster::next_piece` is a total function computing the
fixed point of the source recursion. -/
theorem C8_flood_fill_total (b : GoBoard) (cl : Cluster) (x y fuel : Nat)
    (h : npMeasure b cl.pieces x y < fuel) :
    (cl.next_piece b x y).pieces = nextPieceF b cl.color fuel cl.pieces x y ∧
    (cl.next_piece b x y).color = cl.color := by
  constructor
  · rw [next_piece_pieces]
    exact (npRun_eq_nextPieceF b cl.color cl.pieces x y fuel h).symm
  · rfl

/-- Witness for C8 at a concrete cluster, board and fuel. -/
theorem C8_witness :
    npMeasure bEx2 [((0 : Nat), (0 : Nat))] 0 0 < 20 ∧
    (((Cluster.mk [(0, 0)] BoardCellOption.Black).next_piece bEx2 0 0).pieces =
      nextPieceF bEx2 BoardCellOption.Black 20 [(0, 0)] 0 0 ∧
     ((Cluster.mk [(0, 0)] BoardCellOption.Black).next_piece bEx2 0 0).color =
      BoardCellOption.Black) :=
  ⟨by decide,
   C8_flood_fill_total bEx2 (Cluster.mk [(0, 0)] BoardCellOption.Black) 0 0 20 (by decide)⟩

/-! ### C10: save/load round trip

Modelled from the spec: the source's `save_to_file`/`load_from_file` only
call `serde_json` on the derived `Serialize`/`Deserialize` instances of
`GoBoard`, an external library; §6 of the spec fixes the persisted layout
(a record with `size`, row-major `board` of three-way cell tags,
`captured_black`, `captured_white`). -/

/-- A structured JSON-like value (the persisted state layout of §6). -/
inductive Jx where
  | num (n : Nat)
  | str (s : String)
  | arr (elems : List Jx)
  | obj (fields : List (String × Jx))

/-- Modelled from the spec: cell tags serialize as the three fixed enum
labels. -/
def cellToJson : BoardCellOption → Jx
  | BoardCellOption.Black => Jx.str "Black"
  | BoardCellOption.White => Jx.str "White"
  | BoardCellOption.None => Jx.str "None"

/-- Modelled from the spec: parsing a cell tag, rejecting any other
value. -/
def cellOfJson : Jx → Option BoardCellOption
  | Jx.str "Black" => some BoardCellOption.Black
  | Jx.str "White" => some BoardCellOption.White
  | Jx.str "None" => some BoardCellOption.None
  | _ => none

/-- Modelled from the spec: a row serializes as an array of cell tags. -/
def rowToJson (row : List BoardCellOption) : Jx := Jx.arr (row.map cellToJson)

/-- Modelled from the spec: parsing one row. -/
def rowOfJson : Jx → Option (List BoardCellOption)
  | Jx.arr l => l.mapM cellOfJson
  | _ => none

/-- Modelled from the spec: `GoBoard::save_to_file` emits the structured
record with the four fields `size`, `board`, `captured_black`,
`captured_white`. -/
def GoBoard.save (b : GoBoard) : Jx :=
  Jx.obj [("size", Jx.num b.size),
          ("board", Jx.arr (b.board.map rowToJson)),
          ("captured_black", Jx.num b.captured_black),
          ("captured_white", Jx.num b.captured_white)]

/-- Modelled from the spec: `GoBoard::load_from_file` reads the structured
record back, failing on any malformed field. -/
def GoBoard.load (j : Jx) : Option GoBoard :=
  match j with
  | Jx.obj fields =>
    match fields.lookup "size", fields.lookup "board",
        fields.lookup "captured_black", fields.lookup "captured_white" with
    | some (Jx.num n), some (Jx.arr rows), some (Jx.num cb), some (Jx.num cw) =>
      match rows.mapM rowOfJson with
      | some grid => some ⟨n, grid, cb, cw⟩
      | none => none
    | _, _, _, _ => none
  | _ => none

theorem mapM_map_some {α β : Type} (f : α → β) (g : β → Option α)
    (hfg : ∀ a, g (f a) = some a) : ∀ l : List α, (l.map f).mapM g = some l := by
  intro l
  induction l with
  | nil => rfl
  | cons a t ih =>
    rw [List.map_cons, List.mapM_cons, hfg a, ih]
    rfl

theorem cellOfJson_cellToJson (c : BoardCellOption) : cellOfJson (cellToJson c) = some c := by
  cases c <;> rfl

theorem rowOfJson_rowToJson (row : List BoardCellOption) :
    rowOfJson (rowToJson row) = some row := by
  unfold rowToJson rowOfJson
  exact mapM_map_some cellToJson cellOfJson cellOfJson_cellToJson row

/-- C10: serializing any board value and deserializing the result yields a
board structurally equal to the original in all four fields. -/
theorem C10_save_load_round_trip (b : GoBoard) : GoBoard.load b.save = some b := by
  have h1 : GoBoard.load b.save =
      match (b.board.map rowToJson).mapM rowOfJson with
      | some grid => some ⟨b.size, grid, b.captured_black, b.captured_white⟩
      | none => none := rfl
  rw [h1, mapM_map_some rowToJson rowOfJson rowOfJson_rowToJson b.board]

/-! ### Components: reversal, membership, disjointness -/

theorem adj_symm (p q : Coord) (h : adj p q) : adj q p := by
  rcases h with ⟨h1, h2 | h2⟩ | ⟨h1, h2 | h2⟩
  · exact Or.inl ⟨h1.symm, Or.inr h2⟩
  · exact Or.inl ⟨h1.symm, Or.inl h2⟩
  · exact Or.inr ⟨h1.symm, Or.inr h2⟩
  · exact Or.inr ⟨h1.symm, Or.inl h2⟩

theorem qual_self (b : GoBoard) (x y : Nat) (hx : x < b.size) (hy : y < b.size)
    (hne : getCell b x y ≠ BoardCellOption.None) :
    qual b (getCell b x y) (x, y) := ⟨hx, hy, rfl, hne⟩

theorem comp_mem_cases (b : GoBoard) (s : Coord) :
    ∀ p ∈ sameColorComponent b s, p = s ∨ qual b (getCell b s.1 s.2) p := by
  intro p hp
  induction hp with
  | refl => exact Or.inl rfl
  | tail _ hstep _ => exact Or.inr hstep.2

theorem comp_color_eq (b : GoBoard) (s : Coord) (p : Coord)
    (hp : p ∈ sameColorComponent b s) :
    getCell b p.1 p.2 = getCell b s.1 s.2 := by
  rcases comp_mem_cases b s p hp with rfl | hq
  · rfl
  · exact hq.2.2.1

theorem comp_rev (b : GoBoard) (s : Coord)
    (hq : qual b (getCell b s.1 s.2) s) :
    ∀ p ∈ sameColorComponent b s,
      Relation.ReflTransGen (stepRel b (getCell b s.1 s.2)) p s := by
  intro p hp
  induction hp with
  | refl => exact Relation.ReflTransGen.refl
  | tail hpre hstep ih =>
    next q r =>
      have hqual : qual b (getCell b s.1 s.2) q := by
        rcases comp_mem_cases b s q hpre with rfl | h
        · exact hq
        · exact h
      exact Relation.ReflTransGen.head ⟨adj_symm _ _ hstep.1, hqual⟩ ih

theorem comp_eq_of_mem (b : GoBoard) (s p : Coord)
    (hq : qual b (getCell b s.1 s.2) s) (hp : p ∈ sameColorComponent b s) :
    sameColorComponent b p = sameColorComponent b s := by
  have hc : getCell b p.1 p.2 = getCell b s.1 s.2 := comp_color_eq b s p hp
  ext z
  show Relation.ReflTransGen (stepRel b (getCell b p.1 p.2)) p z ↔
    Relation.ReflTransGen (stepRel b (getCell b s.1 s.2)) s z
  rw [hc]
  constructor
  · intro h
    exact Relation.ReflTransGen.trans hp h
  · intro h
    exact Relation.ReflTransGen.trans (comp_rev b s hq p hp) h

theorem comp_eq_of_common (b : GoBoard) (s t z : Coord)
    (hqs : qual b (getCell b s.1 s.2) s) (hqt : qual b (getCell b t.1 t.2) t)
    (hzs : z ∈ sameColorComponent b s) (hzt : z ∈ sameColorComponent b t) :
    sameColorComponent b s = sameColorComponent b t := by
  rw [← comp_eq_of_mem b s z hqs hzs, ← comp_eq_of_mem b t z hqt hzt]

/-! ### Structural equality of boards from cell-level equality -/

theorem getElem?_row_of_lt (b : GoBoard) (hWF : WF b) (y : Nat) (hy : y < b.size) :
    b.board[y]? = some (b.board.getD y []) := by
  have hl : y < b.board.length := by rw [hWF.2.1]; exact hy
  simp [List.getD_eq_getElem?_getD, List.getElem?_eq_getElem hl]

theorem getElem?_cell_of_lt (b : GoBoard) (hWF : WF b) (x y : Nat)
    (hx : x < b.size) (hy : y < b.size) :
    (b.board.getD y [])[x]? = some (getCell b x y) := by
  have hl : x < (b.board.getD y []).length := by
    rw [row_length b hWF y hy]; exact hx
  show (b.board.getD y [])[x]? = some ((b.board.getD y []).getD x BoardCellOption.None)
  rw [List.getD_eq_getElem?_getD (b.board.getD y []) x, List.getElem?_eq_getElem hl]
  rfl

theorem board_ext (b b' : GoBoard) (hWF : WF b) (hWF' : WF b')
    (hsize : b'.size = b.size) (hcb : b'.captured_black = b.captured_black)
    (hcw : b'.captured_white = b.captured_white)
    (hcell : ∀ x y, x < b.size → y < b.size → getCell b' x y = getCell b x y) :
    b' = b := by
  have hboard : b'.board = b.board := by
    apply List.ext_getElem?
    intro y
    by_cases hy : y < b.size
    · rw [getElem?_row_of_lt b hWF y hy, getElem?_row_of_lt b' hWF' y (by rw [hsize]; exact hy)]
      congr 1
      apply List.ext_getElem?
      intro x
      by_cases hx : x < b.size
      · rw [getElem?_cell_of_lt b hWF x y hx hy,
          getElem?_cell_of_lt b' hWF' x y (by rw [hsize]; exact hx) (by rw [hsize]; exact hy)]
        rw [hcell x y hx hy]
      · have h1 : (b.board.getD y []).length ≤ x := by
          rw [row_length b hWF y hy]; omega
        have h2 : (b'.board.getD y []).length ≤ x := by
          rw [row_length b' hWF' y (by rw [hsize]; exact hy), hsize]; omega
        rw [List.getElem?_eq_none h1, List.getElem?_eq_none h2]
    · have h1 : b.board.length ≤ y := by rw [hWF.2.1]; omega
      have h2 : b'.board.length ≤ y := by rw [hWF'.2.1, hsize]; omega
      rw [List.getElem?_eq_none h1, List.getElem?_eq_none h2]
  obtain ⟨s1, d1, c1, w1⟩ := b
  obtain ⟨s2, d2, c2, w2⟩ := b'
  simp only at hsize hcb hcw hboard
  rw [hsize, hcb, hcw, hboard]

/-! ### Erasure: states reached by emptying cells -/

/-- `b'` is `b` with some cells emptied: same size, every in-bounds cell
kept or turned Empty. -/
def Erases (b b' : GoBoard) : Prop :=
  b'.size = b.size ∧
  ∀ x y, x < b.size → y < b.size →
    getCell b' x y = getCell b x y ∨ getCell b' x y = BoardCellOption.None

theorem Erases_refl (b : GoBoard) : Erases b b :=
  ⟨rfl, fun _ _ _ _ => Or.inl rfl⟩

theorem Erases_trans (b b' b'' : GoBoard) (h1 : Erases b b') (h2 : Erases b' b'') :
    Erases b b'' := by
  refine ⟨h2.1.trans h1.1, ?_⟩
  intro x y hx hy
  have hx' : x < b'.size := by rw [h1.1]; exact hx
  have hy' : y < b'.size := by rw [h1.1]; exact hy
  rcases h2.2 x y hx' hy' with h | h
  · rw [h]; exact h1.2 x y hx hy
  · exact Or.inr h

theorem value_mono (b b' : GoBoard) (hE : Erases b b') (x y : Nat)
    (h : b.value x y = true) : b'.value x y = true := by
  unfold GoBoard.value at h ⊢
  simp only [Bool.and_eq_true, decide_eq_true_eq] at h ⊢
  obtain ⟨⟨hx, hy⟩, hc⟩ := h
  refine ⟨⟨by rw [hE.1]; exact hx, by rw [hE.1]; exact hy⟩, ?_⟩
  rcases hE.2 x y hx hy with h | h
  · rw [h]; exact hc
  · exact h

theorem cell_lib_mono (b b' : GoBoard) (hE : Erases b b') (x y : Nat)
    (h : b.has_liberties x y = true) : b'.has_liberties x y = true := by
  unfold GoBoard.has_liberties at h ⊢
  simp only [Bool.or_eq_true] at h ⊢
  rcases h with ((h | h) | h) | h
  · exact Or.inl (Or.inl (Or.inl (value_mono b b' hE _ _ h)))
  · exact Or.inl (Or.inl (Or.inr (value_mono b b' hE _ _ h)))
  · exact Or.inl (Or.inr (value_mono b b' hE _ _ h))
  · exact Or.inr (value_mono b b' hE _ _ h)

/-! ### Semantics of one cluster evaluation -/

theorem from'_pieces_empty (b : GoBoard) (x y : Nat)
    (he : getCell b x y = BoardCellOption.None) :
    (Cluster.from' b x y).pieces = [(x, y)] := by
  rw [from'_pieces, he, npRun_none_color, npRun_none_color, npRun_none_color,
    npRun_none_color]

theorem clear_from'_empty (b : GoBoard) (x y : Nat)
    (he : getCell b x y = BoardCellOption.None) :
    b.clear_cluster (Cluster.from' b x y) = b := by
  rw [clear_cluster_eq]
  have hbump : counterBump b (Cluster.from' b x y) = b := by
    unfold counterBump
    rw [from'_color, he]
  rw [hbump, from'_pieces_empty b x y he, clearWrites_cons, clearWrites_nil]
  exact writeCell_noop b x y he

theorem clusterStep_of_empty (b : GoBoard) (x y : Nat)
    (he : getCell b x y = BoardCellOption.None) : clusterStep b x y = b := by
  rw [clusterStep_eq]
  split
  · rfl
  · exact clear_from'_empty b x y he

theorem clusterStep_size (b : GoBoard) (x y : Nat) :
    (clusterStep b x y).size = b.size := by
  rw [clusterStep_eq]
  split
  · rfl
  · rw [clear_cluster_eq, clearWrites_size, counterBump_size]

theorem clusterStep_WF (b : GoBoard) (x y : Nat) (hWF : WF b) :
    WF (clusterStep b x y) := by
  rw [clusterStep_eq]
  split
  · exact hWF
  · rw [clear_cluster_eq]
    exact clearWrites_WF _ _ (counterBump_WF _ _ hWF)

theorem clusterStep_result (b : GoBoard) (x y : Nat) :
    clusterStep b x y = b ∨
    ((Cluster.from' b x y).has_liberties b = false ∧
     getCell b x y ≠ BoardCellOption.None ∧
     clusterStep b x y = b.clear_cluster (Cluster.from' b x y)) := by
  by_cases he : getCell b x y = BoardCellOption.None
  · exact Or.inl (clusterStep_of_empty b x y he)
  · rw [clusterStep_eq]
    by_cases hl : (Cluster.from' b x y).has_liberties b = true
    · rw [if_pos hl]
      exact Or.inl rfl
    · rw [if_neg hl]
      exact Or.inr ⟨Bool.eq_false_iff.mpr hl, he, rfl⟩

theorem from'_mem_inb (b : GoBoard) (x y : Nat) (hx : x < b.size) (hy : y < b.size) :
    ∀ p ∈ (Cluster.from' b x y).pieces, p.1 < b.size ∧ p.2 < b.size := by
  intro p hp
  rcases from'_mem_cases b x y p hp with rfl | ⟨hq, _⟩
  · exact ⟨hx, hy⟩
  · exact ⟨hq.1, hq.2.1⟩

theorem getCell_clear_from'_mem (b : GoBoard) (x y : Nat) (hWF : WF b)
    (hx : x < b.size) (hy : y < b.size) (qx qy : Nat)
    (hmem : (qx, qy) ∈ (Cluster.from' b x y).pieces) :
    getCell (b.clear_cluster (Cluster.from' b x y)) qx qy = BoardCellOption.None := by
  rw [clear_cluster_eq]
  refine getCell_clearWrites_mem _ _ qx qy (counterBump_WF _ _ hWF) ?_ hmem
  intro p hp
  rw [counterBump_size]
  exact from'_mem_inb b x y hx hy p hp

theorem getCell_clear_from'_not_mem (b : GoBoard) (x y : Nat) (qx qy : Nat)
    (hnm : (qx, qy) ∉ (Cluster.from' b x y).pieces) :
    getCell (b.clear_cluster (Cluster.from' b x y)) qx qy = getCell b qx qy := by
  rw [clear_cluster_eq, getCell_clearWrites_not_mem _ _ _ _ hnm, getCell_counterBump]

theorem Erases_clusterStep (b : GoBoard) (x y : Nat) (hWF : WF b)
    (hx : x < b.size) (hy : y < b.size) : Erases b (clusterStep b x y) := by
  rcases clusterStep_result b x y with heq | ⟨_, _, heq⟩
  · rw [heq]; exact Erases_refl b
  · refine ⟨clusterStep_size b x y, ?_⟩
    intro qx qy hqx hqy
    rw [heq]
    by_cases hmem : (qx, qy) ∈ (Cluster.from' b x y).pieces
    · exact Or.inr (getCell_clear_from'_mem b x y hWF hx hy qx qy hmem)
    · exact Or.inl (getCell_clear_from'_not_mem b x y qx qy hmem)

/-! ### Component stability under cell-preserving erasure -/

theorem comp_eq_of_preserved (b b' : GoBoard) (s : Coord)
    (hsize : b'.size = b.size)
    (hE : ∀ x y, x < b.size → y < b.size →
      getCell b' x y = getCell b x y ∨ getCell b' x y = BoardCellOption.None)
    (hkeep : ∀ m ∈ sameColorComponent b s, getCell b' m.1 m.2 = getCell b m.1 m.2)
    (hcne : getCell b s.1 s.2 ≠ BoardCellOption.None) :
    sameColorComponent b' s = sameColorComponent b s := by
  have hcs : getCell b' s.1 s.2 = getCell b s.1 s.2 :=
    hkeep s Relation.ReflTransGen.refl
  ext z
  show Relation.ReflTransGen (stepRel b' (getCell b' s.1 s.2)) s z ↔
    Relation.ReflTransGen (stepRel b (getCell b s.1 s.2)) s z
  rw [hcs]
  constructor
  · intro hz
    induction hz with
    | refl => exact Relation.ReflTransGen.refl
    | tail hpre hstep ih =>
      next q z' =>
        obtain ⟨hadj, hq1, hq2, hq3, hq4⟩ := hstep
        have hb1 : z'.1 < b.size := by rw [← hsize]; exact hq1
        have hb2 : z'.2 < b.size := by rw [← hsize]; exact hq2
        have hcell : getCell b z'.1 z'.2 = getCell b s.1 s.2 := by
          rcases hE z'.1 z'.2 hb1 hb2 with h | h
          · rw [← h]; exact hq3
          · rw [h] at hq3; exact absurd hq3.symm hcne
        exact Relation.ReflTransGen.tail ih ⟨hadj, hb1, hb2, hcell, hq4⟩
  · intro hz
    induction hz with
    | refl => exact Relation.ReflTransGen.refl
    | tail hpre hstep ih =>
      next q z' =>
        obtain ⟨hadj, hq1, hq2, hq3, hq4⟩ := hstep
        have hmem : z' ∈ sameColorComponent b s :=
          Relation.ReflTransGen.tail hpre ⟨hadj, hq1, hq2, hq3, hq4⟩
        have hcell : getCell b' z'.1 z'.2 = getCell b s.1 s.2 := by
          rw [hkeep z' hmem]; exact hq3
        exact Relation.ReflTransGen.tail ih
          ⟨hadj, by rw [hsize]; exact hq1, by rw [hsize]; exact hq2, hcell, hq4⟩

/-! ### Surviving a cluster evaluation -/

theorem clusterStep_survive (b : GoBoard) (tx ty qx qy : Nat) (hWF : WF b)
    (htx : tx < b.size) (hty : ty < b.size) (hqx : qx < b.size) (hqy : qy < b.size)
    (hq : getCell (clusterStep b tx ty) qx qy ≠ BoardCellOption.None) :
    getCell (clusterStep b tx ty) qx qy = getCell b qx qy ∧
    sameColorComponent (clusterStep b tx ty) (qx, qy) = sameColorComponent b (qx, qy) := by
  rcases clusterStep_result b tx ty with heq | ⟨hnl, hne, heq⟩
  · rw [heq]
    exact ⟨rfl, rfl⟩
  · have hmemiff := from'_mem_iff b tx ty hWF.1
    have hq_notin : (qx, qy) ∉ (Cluster.from' b tx ty).pieces := by
      intro hmem
      apply hq
      rw [heq]
      exact getCell_clear_from'_mem b tx ty hWF htx hty qx qy hmem
    have hcellq : getCell (clusterStep b tx ty) qx qy = getCell b qx qy := by
      rw [heq]
      exact getCell_clear_from'_not_mem b tx ty qx qy hq_notin
    have hbq_ne : getCell b qx qy ≠ BoardCellOption.None := by
      rw [← hcellq]; exact hq
    refine ⟨hcellq, ?_⟩
    have hqual_q : qual b (getCell b qx qy) (qx, qy) := qual_self b qx qy hqx hqy hbq_ne
    have hqual_t : qual b (getCell b tx ty) (tx, ty) := qual_self b tx ty htx hty hne
    have hnotin_t : ∀ m ∈ sameColorComponent b (qx, qy),
        m ∉ sameColorComponent b (tx, ty) := by
      intro m hm hmt
      apply hq_notin
      have hcomps := comp_eq_of_common b (qx, qy) (tx, ty) m hqual_q hqual_t hm hmt
      rw [hmemiff (qx, qy), ← hcomps]
      exact Relation.ReflTransGen.refl
    apply comp_eq_of_preserved
    · exact clusterStep_size b tx ty
    · exact (Erases_clusterStep b tx ty hWF htx hty).2
    · intro m hm
      have hmnot : m ∉ (Cluster.from' b tx ty).pieces := by
        intro hmm
        exact hnotin_t m hm ((hmemiff m).mp hmm)
      rw [heq]
      exact getCell_clear_from'_not_mem b tx ty m.1 m.2 hmnot
    · exact hbq_ne

/-! ### Liberties of a whole component -/

/-- Some member of the seed's component has a cell-level liberty. -/
def compHasLib (b : GoBoard) (s : Coord) : Prop :=
  ∃ m ∈ sameColorComponent b s, b.has_liberties m.1 m.2 = true

theorem from'_has_liberties_iff (b : GoBoard) (x y : Nat) (hs : b.size ≤ USIZE_MAX) :
    (Cluster.from' b x y).has_liberties b = true ↔ compHasLib b (x, y) := by
  unfold Cluster.has_liberties compHasLib
  rw [List.any_eq_true]
  constructor
  · rintro ⟨m, hm, hlib⟩
    exact ⟨m, (from'_mem_iff b x y hs m).mp hm, hlib⟩
  · rintro ⟨m, hm, hlib⟩
    exact ⟨m, (from'_mem_iff b x y hs m).mpr hm, hlib⟩

theorem compHasLib_congr (b : GoBoard) (s s' : Coord)
    (h : sameColorComponent b s = sameColorComponent b s')
    (hl : compHasLib b s) : compHasLib b s' := by
  obtain ⟨m, hm, hlib⟩ := hl
  exact ⟨m, by rw [← h]; exact hm, hlib⟩

theorem compHasLib_mono (b b' : GoBoard) (s : Coord) (hE : Erases b b')
    (hcomp : sameColorComponent b' s = sameColorComponent b s)
    (h : compHasLib b s) : compHasLib b' s := by
  obtain ⟨m, hm, hlib⟩ := h
  exact ⟨m, by rw [hcomp]; exact hm, cell_lib_mono b b' hE m.1 m.2 hlib⟩

theorem comp_mem_inb (b : GoBoard) (qx qy : Nat) (hqx : qx < b.size) (hqy : qy < b.size) :
    ∀ m ∈ sameColorComponent b (qx, qy), m.1 < b.size ∧ m.2 < b.size := by
  intro m hm
  rcases comp_mem_cases b (qx, qy) m hm with rfl | hq
  · exact ⟨hqx, hqy⟩
  · exact ⟨hq.1, hq.2.1⟩

/-! ### The neighbour phase of `update` as a fold -/

/-- One guarded neighbour evaluation of `update`: skip an out-of-bounds
target, otherwise evaluate and possibly clear the cluster seeded there. -/
def neighborStep (b : GoBoard) (t : Coord) : GoBoard :=
  if t.1 < b.size ∧ t.2 < b.size then clusterStep b t.1 t.2 else b

/-- The four neighbour targets of a placement, in source order. -/
def targetsOf (x y : Nat) : List Coord :=
  [(wsub x, y), (x + 1, y), (x, wsub y), (x, y + 1)]

theorem neighborStep_size (b : GoBoard) (t : Coord) :
    (neighborStep b t).size = b.size := by
  unfold neighborStep
  split
  · exact clusterStep_size b t.1 t.2
  · rfl

theorem neighborStep_WF (b : GoBoard) (t : Coord) (hWF : WF b) :
    WF (neighborStep b t) := by
  unfold neighborStep
  split
  · exact clusterStep_WF b t.1 t.2 hWF
  · exact hWF

theorem Erases_neighborStep (b : GoBoard) (t : Coord) (hWF : WF b) :
    Erases b (neighborStep b t) := by
  unfold neighborStep
  split
  · next h => exact Erases_clusterStep b t.1 t.2 hWF h.1 h.2
  · exact Erases_refl b

theorem neighborStep_survive (b : GoBoard) (t : Coord) (qx qy : Nat) (hWF : WF b)
    (hqx : qx < b.size) (hqy : qy < b.size)
    (hq : getCell (neighborStep b t) qx qy ≠ BoardCellOption.None) :
    getCell (neighborStep b t) qx qy = getCell b qx qy ∧
    sameColorComponent (neighborStep b t) (qx, qy) = sameColorComponent b (qx, qy) := by
  unfold neighborStep at hq ⊢
  split at hq
  · next h =>
    rw [if_pos h]
    exact clusterStep_survive b t.1 t.2 qx qy hWF h.1 h.2 hqx hqy hq
  · next h =>
    rw [if_neg h]
    exact ⟨rfl, rfl⟩

theorem update_eq_fold (b : GoBoard) (x y : Nat) (hx : x < b.size) (hy : y < b.size) :
    b.update x y = (targetsOf x y).foldl neighborStep (clusterStep b x y) := by
  have hA : ∀ (u : GoBoard) (tx : Nat), u.size = b.size →
      (if tx < u.size then clusterStep u tx y else u) = neighborStep u (tx, y) := by
    intro u tx hu
    unfold neighborStep
    by_cases h : tx < u.size
    · rw [if_pos h, if_pos ⟨h, by rw [hu]; exact hy⟩]
    · rw [if_neg h, if_neg (fun hc => h hc.1)]
  have hB : ∀ (u : GoBoard) (ty : Nat), u.size = b.size →
      (if ty < u.size then clusterStep u x ty else u) = neighborStep u (x, ty) := by
    intro u ty hu
    unfold neighborStep
    by_cases h : ty < u.size
    · rw [if_pos h, if_pos ⟨by rw [hu]; exact hx, h⟩]
    · rw [if_neg h, if_neg (fun hc => h hc.2)]
  simp only [GoBoard.update, targetsOf, List.foldl_cons, List.foldl_nil]
  rw [hA _ (wsub x) (clusterStep_size b x y)]
  rw [hA _ (x + 1) ((neighborStep_size _ _).trans (clusterStep_size b x y))]
  rw [hB _ (wsub y) (((neighborStep_size _ _).trans (neighborStep_size _ _)).trans
    (clusterStep_size b x y))]
  rw [hB _ (y + 1) ((((neighborStep_size _ _).trans (neighborStep_size _ _)).trans
    (neighborStep_size _ _)).trans (clusterStep_size b x y))]

/-! ### Folding the neighbour phase -/

theorem fold_neighborStep_size (ts : List Coord) (u : GoBoard) :
    (ts.foldl neighborStep u).size = u.size := by
  induction ts generalizing u with
  | nil => rfl
  | cons t rest ih =>
    rw [List.foldl_cons]
    exact (ih (neighborStep u t)).trans (neighborStep_size u t)

theorem fold_neighborStep_WF (ts : List Coord) (u : GoBoard) (hWF : WF u) :
    WF (ts.foldl neighborStep u) := by
  induction ts generalizing u with
  | nil => exact hWF
  | cons t rest ih =>
    rw [List.foldl_cons]
    exact ih _ (neighborStep_WF u t hWF)

theorem fold_neighborStep_survive (ts : List Coord) (u : GoBoard) (qx qy : Nat)
    (hWF : WF u) (hqx : qx < u.size) (hqy : qy < u.size)
    (hq : getCell (ts.foldl neighborStep u) qx qy ≠ BoardCellOption.None) :
    getCell (ts.foldl neighborStep u) qx qy = getCell u qx qy ∧
    sameColorComponent (ts.foldl neighborStep u) (qx, qy) = sameColorComponent u (qx, qy) ∧
    Erases u (ts.foldl neighborStep u) := by
  induction ts generalizing u with
  | nil => exact ⟨rfl, rfl, Erases_refl u⟩
  | cons t rest ih =>
    rw [List.foldl_cons] at hq ⊢
    have hWF' : WF (neighborStep u t) := neighborStep_WF u t hWF
    have hqx' : qx < (neighborStep u t).size := by rw [neighborStep_size]; exact hqx
    have hqy' : qy < (neighborStep u t).size := by rw [neighborStep_size]; exact hqy
    obtain ⟨hc1, hcomp1, hE1⟩ := ih (neighborStep u t) hWF' hqx' hqy' hq
    have hne1 : getCell (neighborStep u t) qx qy ≠ BoardCellOption.None := by
      rw [← hc1]; exact hq
    obtain ⟨hc2, hcomp2⟩ := neighborStep_survive u t qx qy hWF hqx hqy hne1
    refine ⟨hc1.trans hc2, hcomp1.trans hcomp2, ?_⟩
    exact Erases_trans u _ _ (Erases_neighborStep u t hWF) hE1

/-! ### Stones away from the placed cell keep their component and liberties -/

theorem value_elim (b : GoBoard) (u v : Nat) (h : b.value u v = true) :
    u < b.size ∧ v < b.size ∧ getCell b u v = BoardCellOption.None := by
  unfold GoBoard.value at h
  simp only [Bool.and_eq_true, decide_eq_true_eq] at h
  exact ⟨h.1.1, h.1.2, h.2⟩

theorem value_writeCell_ne (b : GoBoard) (x y : Nat) (piece : BoardCellOption)
    (u v : Nat) (hne : (u, v) ≠ (x, y)) :
    (writeCell b x y piece).value u v = b.value u v := by
  unfold GoBoard.value
  rw [size_writeCell, getCell_writeCell_ne b x y u v piece hne]

theorem comp_writeCell_away (b : GoBoard) (x y : Nat) (piece : BoardCellOption)
    (qx qy : Nat) (hq_ne : (qx, qy) ≠ (x, y))
    (hnotp : (x, y) ∉ sameColorComponent (writeCell b x y piece) (qx, qy))
    (hnoadj : ∀ m ∈ sameColorComponent (writeCell b x y piece) (qx, qy), ¬ adj m (x, y)) :
    sameColorComponent b (qx, qy) = sameColorComponent (writeCell b x y piece) (qx, qy) ∧
    getCell b qx qy = getCell (writeCell b x y piece) qx qy := by
  have hcq : getCell b qx qy = getCell (writeCell b x y piece) qx qy :=
    (getCell_writeCell_ne b x y qx qy piece hq_ne).symm
  have hshow : getCell (writeCell b x y piece) (qx, qy).1 (qx, qy).2 = getCell b qx qy :=
    hcq.symm
  have hnotp' : ¬ Relation.ReflTransGen
      (stepRel (writeCell b x y piece) (getCell b qx qy)) (qx, qy) (x, y) := by
    intro h
    apply hnotp
    show Relation.ReflTransGen (stepRel (writeCell b x y piece)
      (getCell (writeCell b x y piece) (qx, qy).1 (qx, qy).2)) (qx, qy) (x, y)
    rw [hshow]
    exact h
  have hnoadj' : ∀ m, Relation.ReflTransGen
      (stepRel (writeCell b x y piece) (getCell b qx qy)) (qx, qy) m →
      ¬ adj m (x, y) := by
    intro m hm
    apply hnoadj
    show Relation.ReflTransGen (stepRel (writeCell b x y piece)
      (getCell (writeCell b x y piece) (qx, qy).1 (qx, qy).2)) (qx, qy) m
    rw [hshow]
    exact hm
  refine ⟨?_, hcq⟩
  ext z
  show Relation.ReflTransGen (stepRel b (getCell b (qx, qy).1 (qx, qy).2)) (qx, qy) z ↔
    Relation.ReflTransGen (stepRel (writeCell b x y piece)
      (getCell (writeCell b x y piece) (qx, qy).1 (qx, qy).2)) (qx, qy) z
  rw [hshow]
  show Relation.ReflTransGen (stepRel b (getCell b qx qy)) (qx, qy) z ↔
    Relation.ReflTransGen (stepRel (writeCell b x y piece) (getCell b qx qy)) (qx, qy) z
  constructor
  · intro hz
    induction hz with
    | refl => exact Relation.ReflTransGen.refl
    | tail hpre hstep ih =>
      next w z' =>
        obtain ⟨hadj, h1, h2, h3, h4⟩ := hstep
        have hz'ne : z' ≠ (x, y) := by
          rintro rfl
          exact hnoadj' w ih hadj
        refine Relation.ReflTransGen.tail ih ⟨hadj, h1, h2, ?_, h4⟩
        rw [getCell_writeCell_ne b x y z'.1 z'.2 piece (by
          intro he
          apply hz'ne
          obtain ⟨a1, a2⟩ := z'
          simpa using he)]
        exact h3
  · intro hz
    induction hz with
    | refl => exact Relation.ReflTransGen.refl
    | tail hpre hstep ih =>
      next w z' =>
        obtain ⟨hadj, h1, h2, h3, h4⟩ := hstep
        have hz'mem : Relation.ReflTransGen
            (stepRel (writeCell b x y piece) (getCell b qx qy)) (qx, qy) z' :=
          Relation.ReflTransGen.tail hpre ⟨hadj, h1, h2, h3, h4⟩
        have hz'ne : z' ≠ (x, y) := by
          rintro rfl
          exact hnotp' hz'mem
        refine Relation.ReflTransGen.tail ih ⟨hadj, h1, h2, ?_, h4⟩
        rw [← getCell_writeCell_ne b x y z'.1 z'.2 piece (by
          intro he
          apply hz'ne
          obtain ⟨a1, a2⟩ := z'
          simpa using he)]
        exact h3

theorem hasLib_writeCell_away (b : GoBoard) (x y : Nat) (piece : BoardCellOption)
    (hs : b.size ≤ USIZE_MAX) (m : Coord) (hmadj : ¬ adj m (x, y))
    (h : b.has_liberties m.1 m.2 = true) :
    (writeCell b x y piece).has_liberties m.1 m.2 = true := by
  unfold GoBoard.has_liberties at h ⊢
  simp only [Bool.or_eq_true] at h ⊢
  have hright : (m.1 + 1, m.2) ≠ (x, y) := by
    intro he
    exact hmadj (he ▸ adj_right m.1 m.2)
  have hdown : (m.1, m.2 + 1) ≠ (x, y) := by
    intro he
    exact hmadj (he ▸ adj_down m.1 m.2)
  rcases h with ((h | h) | h) | h
  · exact Or.inl (Or.inl (Or.inl (by rw [value_writeCell_ne b x y piece _ _ hright]; exact h)))
  · have hinb := value_elim b _ _ h
    have hleft : (wsub m.1, m.2) ≠ (x, y) := by
      intro he
      exact hmadj (he ▸ adj_left m.1 m.2 (wsub_succ_of_lt b.size m.1 hs hinb.1))
    exact Or.inl (Or.inl (Or.inr (by rw [value_writeCell_ne b x y piece _ _ hleft]; exact h)))
  · exact Or.inl (Or.inr (by rw [value_writeCell_ne b x y piece _ _ hdown]; exact h))
  · have hinb := value_elim b _ _ h
    have hup : (m.1, wsub m.2) ≠ (x, y) := by
      intro he
      exact hmadj (he ▸ adj_up m.1 m.2 (wsub_succ_of_lt b.size m.2 hs hinb.2.1))
    exact Or.inr (by rw [value_writeCell_ne b x y piece _ _ hup]; exact h)

/-! ### Liberty propagation through the neighbour phase -/

theorem fold_compHasLib (ts : List Coord) (u : GoBoard) (qx qy : Nat)
    (hWF : WF u) (hqx : qx < u.size) (hqy : qy < u.size)
    (hq : getCell (ts.foldl neighborStep u) qx qy ≠ BoardCellOption.None)
    (hcase : (∃ t ∈ ts, (t.1 < u.size ∧ t.2 < u.size) ∧
        t ∈ sameColorComponent u (qx, qy)) ∨ compHasLib u (qx, qy)) :
    compHasLib (ts.foldl neighborStep u) (qx, qy) := by
  induction ts generalizing u with
  | nil =>
    rcases hcase with ⟨t, ht, _⟩ | h
    · exact absurd ht (List.not_mem_nil t)
    · exact h
  | cons t rest ih =>
    rw [List.foldl_cons] at hq ⊢
    have hWF' : WF (neighborStep u t) := neighborStep_WF u t hWF
    have hqx' : qx < (neighborStep u t).size := by rw [neighborStep_size]; exact hqx
    have hqy' : qy < (neighborStep u t).size := by rw [neighborStep_size]; exact hqy
    obtain ⟨hc1, hcomp1, hE1⟩ :=
      fold_neighborStep_survive rest (neighborStep u t) qx qy hWF' hqx' hqy' hq
    have hne' : getCell (neighborStep u t) qx qy ≠ BoardCellOption.None := by
      rw [← hc1]; exact hq
    obtain ⟨hc2, hcomp2⟩ := neighborStep_survive u t qx qy hWF hqx hqy hne'
    have hneu : getCell u qx qy ≠ BoardCellOption.None := by
      rw [← hc2]; exact hne'
    rcases hcase with ⟨t', ht'mem, ht'inb, ht'comp⟩ | hlib
    · rcases List.mem_cons.mp ht'mem with rfl | ht'rest
      · have hguard : neighborStep u t' = clusterStep u t'.1 t'.2 := by
          unfold neighborStep
          rw [if_pos ht'inb]
        have hcell_t : getCell u t'.1 t'.2 = getCell u qx qy :=
          comp_color_eq u (qx, qy) t' ht'comp
        have hqual_q : qual u (getCell u qx qy) (qx, qy) :=
          qual_self u qx qy hqx hqy hneu
        have hcomp_tq : sameColorComponent u (t'.1, t'.2) = sameColorComponent u (qx, qy) :=
          comp_eq_of_mem u (qx, qy) t' hqual_q ht'comp
        by_cases hlt : (Cluster.from' u t'.1 t'.2).has_liberties u = true
        · have h1 : compHasLib u (t'.1, t'.2) :=
            (from'_has_liberties_iff u t'.1 t'.2 hWF.1).mp hlt
          have h2 : compHasLib u (qx, qy) :=
            compHasLib_congr u (t'.1, t'.2) (qx, qy) hcomp_tq h1
          have h3 : compHasLib (neighborStep u t') (qx, qy) :=
            compHasLib_mono u _ _ (Erases_neighborStep u t' hWF) hcomp2 h2
          exact ih (neighborStep u t') hWF' hqx' hqy' hq (Or.inr h3)
        · have hstep_eq : neighborStep u t' = u.clear_cluster (Cluster.from' u t'.1 t'.2) := by
            rw [hguard, clusterStep_eq, if_neg hlt]
          have hq_in_pieces : (qx, qy) ∈ (Cluster.from' u t'.1 t'.2).pieces := by
            rw [from'_mem_iff u t'.1 t'.2 hWF.1]
            show (qx, qy) ∈ sameColorComponent u (t'.1, t'.2)
            rw [hcomp_tq]
            exact Relation.ReflTransGen.refl
          have hgone : getCell (neighborStep u t') qx qy = BoardCellOption.None := by
            rw [hstep_eq]
            exact getCell_clear_from'_mem u t'.1 t'.2 hWF ht'inb.1 ht'inb.2 qx qy hq_in_pieces
          exact absurd hgone hne'
      · refine ih (neighborStep u t) hWF' hqx' hqy' hq (Or.inl ⟨t', ht'rest, ?_, ?_⟩)
        · rw [neighborStep_size]
          exact ht'inb
        · rw [hcomp2]
          exact ht'comp
    · have h3 : compHasLib (neighborStep u t) (qx, qy) :=
        compHasLib_mono u _ _ (Erases_neighborStep u t hWF) hcomp2 hlib
      exact ih (neighborStep u t) hWF' hqx' hqy' hq (Or.inr h3)

/-! ### C9: no liberty-less group survives a placement -/

/-- Every non-Empty in-bounds cell sits in a cluster with at least one
liberty. -/
def Good (b : GoBoard) : Prop :=
  ∀ x y, x < b.size → y < b.size → getCell b x y ≠ BoardCellOption.None →
    (Cluster.from' b x y).has_liberties b = true

theorem ite_clusterStep_WF (b : GoBoard) (c : Prop) [Decidable c] (x y : Nat)
    (hWF : WF b) : WF (if c then clusterStep b x y else b) := by
  split
  · exact clusterStep_WF b x y hWF
  · exact hWF

theorem update_WF (b : GoBoard) (x y : Nat) (hWF : WF b) : WF (b.update x y) := by
  simp only [GoBoard.update]
  exact ite_clusterStep_WF _ _ _ _ (ite_clusterStep_WF _ _ _ _ (ite_clusterStep_WF _ _ _ _
    (ite_clusterStep_WF _ _ _ _ (clusterStep_WF b x y hWF))))

theorem set_WF (b : GoBoard) (x y : Nat) (piece : BoardCellOption) (hWF : WF b) :
    WF (b.set x y piece) := by
  unfold GoBoard.set
  split
  · exact update_WF _ x y (WF_writeCell b x y piece hWF)
  · exact hWF

theorem getCell_new (n x y : Nat) : getCell (GoBoard.new n) x y = BoardCellOption.None := by
  unfold getCell GoBoard.new
  simp only [List.getD_eq_getElem?_getD, List.getElem?_replicate]
  by_cases hy : y < n
  · rw [if_pos hy]
    simp [List.getElem?_replicate]
    split <;> rfl
  · rw [if_neg hy]
    rfl

theorem WF_new (n : Nat) (hn : n ≤ USIZE_MAX) : WF (GoBoard.new n) := by
  refine ⟨hn, by simp [GoBoard.new], ?_⟩
  intro row hrow
  rw [List.eq_of_mem_replicate hrow]
  simp [GoBoard.new]

theorem Good_new (n : Nat) : Good (GoBoard.new n) := by
  intro x y _ _ hne
  exact absurd (getCell_new n x y) hne

theorem set_preserves_good (b : GoBoard) (x y : Nat) (piece : BoardCellOption)
    (hWF : WF b) (hGood : Good b) : Good (b.set x y piece) := by
  unfold GoBoard.set
  split
  case isFalse => exact hGood
  case isTrue h =>
    have hWFw : WF (writeCell b x y piece) := WF_writeCell b x y piece hWF
    have hx' : x < (writeCell b x y piece).size := h.1
    have hy' : y < (writeCell b x y piece).size := h.2
    rw [update_eq_fold (writeCell b x y piece) x y hx' hy']
    set bw := writeCell b x y piece with hbw
    set s0 := clusterStep bw x y with hs0
    have hWF0 : WF s0 := clusterStep_WF bw x y hWFw
    have hs0sz : s0.size = b.size := clusterStep_size bw x y
    intro qx qy hqx hqy hqne
    have hfsz : ((targetsOf x y).foldl neighborStep s0).size = b.size := by
      rw [fold_neighborStep_size]
      exact hs0sz
    have hqxb : qx < b.size := by rw [← hfsz]; exact hqx
    have hqyb : qy < b.size := by rw [← hfsz]; exact hqy
    have hqx0 : qx < s0.size := by rw [hs0sz]; exact hqxb
    have hqy0 : qy < s0.size := by rw [hs0sz]; exact hqyb
    have hqxw : qx < bw.size := hqxb
    have hqyw : qy < bw.size := hqyb
    have hWFf : WF ((targetsOf x y).foldl neighborStep s0) :=
      fold_neighborStep_WF _ _ hWF0
    rw [from'_has_liberties_iff _ qx qy hWFf.1]
    refine fold_compHasLib (targetsOf x y) s0 qx qy hWF0 hqx0 hqy0 hqne ?_
    obtain ⟨hcf, hcompf, _⟩ :=
      fold_neighborStep_survive (targetsOf x y) s0 qx qy hWF0 hqx0 hqy0 hqne
    have hs0ne : getCell s0 qx qy ≠ BoardCellOption.None := by
      rw [← hcf]; exact hqne
    obtain ⟨hcs, hcomps⟩ := clusterStep_survive bw x y qx qy hWFw h.1 h.2 hqxw hqyw hs0ne
    have hbwne : getCell bw qx qy ≠ BoardCellOption.None := by
      rw [← hcs]; exact hs0ne
    by_cases hhit : ∃ t ∈ targetsOf x y, (t.1 < s0.size ∧ t.2 < s0.size) ∧
        t ∈ sameColorComponent s0 (qx, qy)
    · exact Or.inl hhit
    · push_neg at hhit
      by_cases hp : (x, y) ∈ sameColorComponent s0 (qx, qy)
      · have hcxy : getCell s0 x y = getCell s0 qx qy :=
          comp_color_eq s0 (qx, qy) (x, y) hp
        have hs0xyne : getCell s0 x y ≠ BoardCellOption.None := by
          rw [hcxy]; exact hs0ne
        obtain ⟨hcsp, hcompsp⟩ :=
          clusterStep_survive bw x y x y hWFw h.1 h.2 h.1 h.2 hs0xyne
        have hlibs : (Cluster.from' bw x y).has_liberties bw = true := by
          by_contra hnl
          have hclr_eq : s0 = bw.clear_cluster (Cluster.from' bw x y) := by
            rw [hs0, clusterStep_eq, if_neg hnl]
          have hclr : getCell s0 x y = BoardCellOption.None := by
            rw [hclr_eq]
            exact getCell_clear_from'_mem bw x y hWFw h.1 h.2 x y (from'_seed_mem bw x y)
          exact hs0xyne hclr
        have h1' : compHasLib bw (x, y) := (from'_has_liberties_iff bw x y hWFw.1).mp hlibs
        have h2' : compHasLib s0 (x, y) :=
          compHasLib_mono bw s0 (x, y) (Erases_clusterStep bw x y hWFw h.1 h.2) hcompsp h1'
        have hqual : qual s0 (getCell s0 qx qy) (qx, qy) :=
          qual_self s0 qx qy hqx0 hqy0 hs0ne
        have hcc : sameColorComponent s0 (x, y) = sameColorComponent s0 (qx, qy) :=
          comp_eq_of_mem s0 (qx, qy) (x, y) hqual hp
        exact Or.inr (compHasLib_congr s0 (x, y) (qx, qy) hcc h2')
      · have hnotp_bw : (x, y) ∉ sameColorComponent bw (qx, qy) := by
          rw [← hcomps]; exact hp
        have hnoadj_bw : ∀ m ∈ sameColorComponent bw (qx, qy), ¬ adj m (x, y) := by
          intro m hm hadj
          have hminb := comp_mem_inb bw qx qy hqxw hqyw m hm
          have htg := adj_mem_targets x y m (adj_symm m (x, y) hadj)
          have hmem_t : m ∈ targetsOf x y := by
            rcases htg with rfl | rfl | rfl | rfl <;> simp [targetsOf]
          refine hhit m hmem_t ⟨by rw [hs0sz]; exact hminb.1, by rw [hs0sz]; exact hminb.2⟩ ?_
          rw [hcomps]
          exact hm
        have hqne_p : (qx, qy) ≠ (x, y) := by
          intro he
          apply hnotp_bw
          rw [← he]
          exact Relation.ReflTransGen.refl
        obtain ⟨hcompb, hcellb⟩ :=
          comp_writeCell_away b x y piece qx qy hqne_p hnotp_bw hnoadj_bw
        have hbne : getCell b qx qy ≠ BoardCellOption.None := by
          rw [hcellb]; exact hbwne
        have hgb := hGood qx qy hqxb hqyb hbne
        have h1' : compHasLib b (qx, qy) := (from'_has_liberties_iff b qx qy hWF.1).mp hgb
        have h2' : compHasLib bw (qx, qy) := by
          obtain ⟨m, hm, hlib⟩ := h1'
          have hm_bw : m ∈ sameColorComponent bw (qx, qy) := by
            rw [← hcompb]; exact hm
          exact ⟨m, hm_bw, hasLib_writeCell_away b x y piece hWF.1 m (hnoadj_bw m hm_bw) hlib⟩
        exact Or.inr (compHasLib_mono bw s0 (qx, qy)
          (Erases_clusterStep bw x y hWFw h.1 h.2) hcomps h2')

theorem applyMoves_good (ms : List (Nat × Nat × BoardCellOption)) :
    ∀ b : GoBoard, WF b → Good b →
      WF (applyMoves b ms) ∧ Good (applyMoves b ms) := by
  induction ms with
  | nil => exact fun b hWF hG => ⟨hWF, hG⟩
  | cons m rest ih =>
    intro b hWF hG
    have hstep : applyMoves b (m :: rest) = applyMoves (b.set m.1 m.2.1 m.2.2) rest := rfl
    rw [hstep]
    exact ih _ (set_WF b m.1 m.2.1 m.2.2 hWF)
      (set_preserves_good b m.1 m.2.1 m.2.2 hWF hG)

/-- C9: every board state reachable from a freshly constructed board by any
sequence of placements satisfies: every non-Empty cell belongs to a cluster
with at least one liberty — no liberty-less group survives a completed
placement. -/
theorem C9_reachable_boards_good (n : Nat) (hn : n ≤ USIZE_MAX)
    (ms : List (Nat × Nat × BoardCellOption)) :
    Good (applyMoves (GoBoard.new n) ms) :=
  (applyMoves_good ms (GoBoard.new n) (WF_new n hn) (Good_new n)).2

/-- Witness for C9 on a concrete game on a 3×3 board. -/
theorem C9_witness :
    3 ≤ USIZE_MAX ∧
    Good (applyMoves (GoBoard.new 3)
      [(0, 1, BoardCellOption.Black), (1, 1, BoardCellOption.White),
       (1, 0, BoardCellOption.Black), (2, 1, BoardCellOption.Black),
       (1, 2, BoardCellOption.Black)]) :=
  ⟨by decide,
   C9_reachable_boards_good 3 (by decide)
     [(0, 1, BoardCellOption.Black), (1, 1, BoardCellOption.White),
      (1, 0, BoardCellOption.Black), (2, 1, BoardCellOption.Black),
      (1, 2, BoardCellOption.Black)]⟩

/-! ### C7: helpers for order-independence of the neighbour phase -/

theorem clear_captured_black_eq (s : GoBoard) (cl : Cluster) :
    (s.clear_cluster cl).captured_black = s.captured_black +
      (if cl.color = BoardCellOption.White then cl.pieces.length else 0) := by
  rw [clear_cluster_eq, clearWrites_captured_black]
  unfold counterBump
  cases cl.color <;> simp

theorem clear_captured_white_eq (s : GoBoard) (cl : Cluster) :
    (s.clear_cluster cl).captured_white = s.captured_white +
      (if cl.color = BoardCellOption.Black then cl.pieces.length else 0) := by
  rw [clear_cluster_eq, clearWrites_captured_white]
  unfold counterBump
  cases cl.color <;> simp

theorem length_eq_of_mem_iff (l1 l2 : List Coord) (h1 : l1.Nodup) (h2 : l2.Nodup)
    (h : ∀ a, a ∈ l1 ↔ a ∈ l2) : l1.length = l2.length :=
  ((List.perm_ext_iff_of_nodup h1 h2).mpr h).length_eq

theorem value_intro (s : GoBoard) (u v : Nat) (hu : u < s.size) (hv : v < s.size)
    (hc : getCell s u v = BoardCellOption.None) : s.value u v = true := by
  unfold GoBoard.value
  simp [hu, hv, hc]

theorem hasLib_of_adj_none (s : GoBoard) (_hs : s.size ≤ USIZE_MAX) (m p : Coord)
    (hadj : adj m p) (hp1 : p.1 < s.size) (hp2 : p.2 < s.size)
    (hpc : getCell s p.1 p.2 = BoardCellOption.None) :
    s.has_liberties m.1 m.2 = true := by
  have hval : s.value p.1 p.2 = true := value_intro s p.1 p.2 hp1 hp2 hpc
  have hm : adj (m.1, m.2) p := hadj
  unfold GoBoard.has_liberties
  simp only [Bool.or_eq_true]
  rcases adj_mem_targets m.1 m.2 p hm with rfl | rfl | rfl | rfl
  · exact Or.inr hval
  · exact Or.inl (Or.inl (Or.inr hval))
  · exact Or.inl (Or.inl (Or.inl hval))
  · exact Or.inl (Or.inr hval)

theorem hasLib_false_elim (s : GoBoard) (u v : Nat)
    (h : s.has_liberties u v = false) :
    s.value (u + 1) v = false ∧ s.value (wsub u) v = false ∧
    s.value u (v + 1) = false ∧ s.value u (wsub v) = false := by
  unfold GoBoard.has_liberties at h
  simp only [Bool.or_eq_false_iff] at h
  exact ⟨h.1.1.1, h.1.1.2, h.1.2, h.2⟩

theorem value_false_elim (s : GoBoard) (u v : Nat) (hu : u < s.size) (hv : v < s.size)
    (h : s.value u v = false) : getCell s u v ≠ BoardCellOption.None := by
  unfold GoBoard.value at h
  simp only [Bool.and_eq_false_iff, decide_eq_false_iff_not] at h
  rcases h with (h | h) | h
  · exact absurd hu (by simpa using h)
  · exact absurd hv (by simpa using h)
  · simpa using h

/-- A cell liberty gained by clearing a cluster is adjacent to a cleared
cell: if `m` has a liberty after the clear but had none before, some member
of the cleared cluster is orthogonally adjacent to `m`. -/
theorem newlib_from_clear (s : GoBoard) (tx ty : Nat) (hWF : WF s)
    (_htx : tx < s.size) (_hty : ty < s.size) (m : Coord)
    (hlib1 : (s.clear_cluster (Cluster.from' s tx ty)).has_liberties m.1 m.2 = true)
    (hlib0 : s.has_liberties m.1 m.2 = false) :
    ∃ l, adj m l ∧ l ∈ (Cluster.from' s tx ty).pieces := by
  set s1 := s.clear_cluster (Cluster.from' s tx ty) with hs1
  have hsz : s1.size = s.size := by
    rw [hs1, clear_cluster_eq, clearWrites_size, counterBump_size]
  obtain ⟨hf1, hf2, hf3, hf4⟩ := hasLib_false_elim s m.1 m.2 hlib0
  have key : ∀ u v : Nat, s1.value u v = true → s.value u v = false →
      (u, v) ∈ (Cluster.from' s tx ty).pieces := by
    intro u v h1 h0
    obtain ⟨hu, hv, hc⟩ := value_elim s1 u v h1
    have hu' : u < s.size := by rw [← hsz]; exact hu
    have hv' : v < s.size := by rw [← hsz]; exact hv
    have hcn : getCell s u v ≠ BoardCellOption.None := value_false_elim s u v hu' hv' h0
    by_contra hnm
    have : getCell s1 u v = getCell s u v := by
      rw [hs1]
      exact getCell_clear_from'_not_mem s tx ty u v hnm
    rw [this] at hc
    exact hcn hc
  unfold GoBoard.has_liberties at hlib1
  simp only [Bool.or_eq_true] at hlib1
  rcases hlib1 with ((h | h) | h) | h
  · exact ⟨(m.1 + 1, m.2), adj_right m.1 m.2, key _ _ h hf1⟩
  · have hinb := value_elim s1 _ _ h
    have hw : wsub m.1 + 1 = m.1 :=
      wsub_succ_of_lt s.size m.1 hWF.1 (by rw [← hsz]; exact hinb.1)
    exact ⟨(wsub m.1, m.2), adj_left m.1 m.2 hw, key _ _ h hf2⟩
  · exact ⟨(m.1, m.2 + 1), adj_down m.1 m.2, key _ _ h hf3⟩
  · have hinb := value_elim s1 _ _ h
    have hw : wsub m.2 + 1 = m.2 :=
      wsub_succ_of_lt s.size m.2 hWF.1 (by rw [← hsz]; exact hinb.2.1)
    exact ⟨(m.1, wsub m.2), adj_up m.1 m.2 hw, key _ _ h hf4⟩

theorem clear_cluster_WF (s : GoBoard) (cl : Cluster) (hWF : WF s) :
    WF (s.clear_cluster cl) := by
  rw [clear_cluster_eq]
  exact clearWrites_WF _ _ (counterBump_WF _ _ hWF)

/-- Clearing clusters with the same member set and colour from the same
board gives identical boards. -/
theorem clear_from'_ext (s : GoBoard) (t1x t1y t2x t2y : Nat) (hWF : WF s)
    (h1x : t1x < s.size) (h1y : t1y < s.size)
    (hmem : ∀ a : Coord, a ∈ (Cluster.from' s t1x t1y).pieces ↔
      a ∈ (Cluster.from' s t2x t2y).pieces)
    (hcol : (Cluster.from' s t1x t1y).color = (Cluster.from' s t2x t2y).color) :
    s.clear_cluster (Cluster.from' s t1x t1y) = s.clear_cluster (Cluster.from' s t2x t2y) := by
  have hlen : (Cluster.from' s t1x t1y).pieces.length =
      (Cluster.from' s t2x t2y).pieces.length :=
    length_eq_of_mem_iff _ _ (from'_nodup s t1x t1y) (from'_nodup s t2x t2y) hmem
  have h2x : ∀ p ∈ (Cluster.from' s t2x t2y).pieces, p.1 < s.size ∧ p.2 < s.size := by
    intro p hp
    exact from'_mem_inb s t1x t1y h1x h1y p ((hmem p).mpr hp)
  refine board_ext _ _ (clear_cluster_WF s _ hWF) (clear_cluster_WF s _ hWF) ?_ ?_ ?_ ?_
  · rw [clear_cluster_eq, clear_cluster_eq, clearWrites_size, clearWrites_size,
      counterBump_size, counterBump_size]
  · rw [clear_captured_black_eq, clear_captured_black_eq, hcol, hlen]
  · rw [clear_captured_white_eq, clear_captured_white_eq, hcol, hlen]
  · intro qx qy hqx hqy
    have h2inb : t2x < s.size ∧ t2y < s.size :=
      from'_mem_inb s t1x t1y h1x h1y (t2x, t2y)
        ((hmem (t2x, t2y)).mpr (from'_seed_mem s t2x t2y))
    by_cases hm : (qx, qy) ∈ (Cluster.from' s t2x t2y).pieces
    · rw [getCell_clear_from'_mem s t1x t1y hWF h1x h1y qx qy ((hmem (qx, qy)).mpr hm),
        getCell_clear_from'_mem s t2x t2y hWF h2inb.1 h2inb.2 qx qy hm]
    · rw [getCell_clear_from'_not_mem s t2x t2y qx qy hm,
        getCell_clear_from'_not_mem s t1x t1y qx qy (fun hq => hm ((hmem _).mp hq))]

theorem cell_none_mono (s s' : GoBoard) (hE : Erases s s') (q1 q2 : Nat)
    (h1 : q1 < s.size) (h2 : q2 < s.size)
    (hc : getCell s q1 q2 = BoardCellOption.None) :
    getCell s' q1 q2 = BoardCellOption.None := by
  rcases hE.2 q1 q2 h1 h2 with h | h
  · rw [h]; exact hc
  · exact h

theorem three_colors (a b c : BoardCellOption) (ha : a ≠ BoardCellOption.None)
    (hb : b ≠ BoardCellOption.None) (hc : c ≠ BoardCellOption.None)
    (hab : a ≠ b) (hca : c ≠ a) (hcb : c ≠ b) : False := by
  cases a <;> cases b <;> cases c <;> simp_all

theorem from'_hasLib_of_member (s : GoBoard) (x y : Nat) (m : Coord)
    (hm : m ∈ (Cluster.from' s x y).pieces) (hlib : s.has_liberties m.1 m.2 = true) :
    (Cluster.from' s x y).has_liberties s = true := by
  unfold Cluster.has_liberties
  rw [List.any_eq_true]
  exact ⟨m, hm, hlib⟩

/-- After clearing one liberty-less cluster, a disjoint liberty-less
cluster seeded at a neighbour of the placed cell is still liberty-less,
given the placed cell's own situation is settled (Empty, or its cluster
has a liberty). -/
theorem libs_false_after_clear (s : GoBoard) (t1 t2 : Coord) (hWF : WF s)
    (h1 : t1.1 < s.size ∧ t1.2 < s.size) (h2 : t2.1 < s.size ∧ t2.2 < s.size)
    (hc1 : getCell s t1.1 t1.2 ≠ BoardCellOption.None)
    (hc2 : getCell s t2.1 t2.2 ≠ BoardCellOption.None)
    (hdisj : (t2.1, t2.2) ∉ sameColorComponent s (t1.1, t1.2))
    (hl1 : (Cluster.from' s t1.1 t1.2).has_liberties s = false)
    (hl2 : (Cluster.from' s t2.1 t2.2).has_liberties s = false)
    (p : Coord) (hp1 : p.1 < s.size) (hp2 : p.2 < s.size)
    (hadj1 : adj p (t1.1, t1.2)) (hadj2 : adj p (t2.1, t2.2))
    (hpdis : getCell s p.1 p.2 = BoardCellOption.None ∨
      (getCell s p.1 p.2 ≠ BoardCellOption.None ∧ compHasLib s p)) :
    (Cluster.from' (clusterStep s t1.1 t1.2) t2.1 t2.2).has_liberties
      (clusterStep s t1.1 t1.2) = false := by
  have hnot1 : ¬ (Cluster.from' s t1.1 t1.2).has_liberties s = true := by simp [hl1]
  have hclr : clusterStep s t1.1 t1.2 = s.clear_cluster (Cluster.from' s t1.1 t1.2) := by
    rw [clusterStep_eq, if_neg hnot1]
  have hq2_notin : (t2.1, t2.2) ∉ (Cluster.from' s t1.1 t1.2).pieces := by
    intro hmm
    exact hdisj ((from'_mem_iff s t1.1 t1.2 hWF.1 _).mp hmm)
  have hS1ne : getCell (clusterStep s t1.1 t1.2) t2.1 t2.2 ≠ BoardCellOption.None := by
    rw [hclr, getCell_clear_from'_not_mem s t1.1 t1.2 t2.1 t2.2 hq2_notin]
    exact hc2
  obtain ⟨hcell2, hcomp2⟩ :=
    clusterStep_survive s t1.1 t1.2 t2.1 t2.2 hWF h1.1 h1.2 h2.1 h2.2 hS1ne
  have hWF1 : WF (clusterStep s t1.1 t1.2) := clusterStep_WF s t1.1 t1.2 hWF
  by_contra hpos
  have hpos' : (Cluster.from' (clusterStep s t1.1 t1.2) t2.1 t2.2).has_liberties
      (clusterStep s t1.1 t1.2) = true := by
    revert hpos
    cases h : (Cluster.from' (clusterStep s t1.1 t1.2) t2.1 t2.2).has_liberties
      (clusterStep s t1.1 t1.2) <;> simp
  obtain ⟨m, hm, hmlib⟩ :=
    (from'_has_liberties_iff (clusterStep s t1.1 t1.2) t2.1 t2.2 hWF1.1).mp hpos'
  have hm_s : m ∈ sameColorComponent s (t2.1, t2.2) := by
    rw [← hcomp2]; exact hm
  by_cases hm0 : s.has_liberties m.1 m.2 = true
  · have : compHasLib s (t2.1, t2.2) := ⟨m, hm_s, hm0⟩
    have := (from'_has_liberties_iff s t2.1 t2.2 hWF.1).mpr this
    rw [this] at hl2
    exact absurd hl2 (by simp)
  · have hm0' : s.has_liberties m.1 m.2 = false := by
      revert hm0
      cases h : s.has_liberties m.1 m.2 <;> simp
    have hmlib' : (s.clear_cluster (Cluster.from' s t1.1 t1.2)).has_liberties m.1 m.2 = true := by
      rw [← hclr]; exact hmlib
    obtain ⟨l, hladj, hlmem⟩ := newlib_from_clear s t1.1 t1.2 hWF h1.1 h1.2 m hmlib' hm0'
    have hl_comp1 : l ∈ sameColorComponent s (t1.1, t1.2) :=
      (from'_mem_iff s t1.1 t1.2 hWF.1 l).mp hlmem
    have hlinb := from'_mem_inb s t1.1 t1.2 h1.1 h1.2 l hlmem
    have hcl1 : getCell s l.1 l.2 = getCell s t1.1 t1.2 :=
      comp_color_eq s (t1.1, t1.2) l hl_comp1
    have hcm2 : getCell s m.1 m.2 = getCell s t2.1 t2.2 :=
      comp_color_eq s (t2.1, t2.2) m hm_s
    have hqual1 : qual s (getCell s t1.1 t1.2) (t1.1, t1.2) :=
      qual_self s t1.1 t1.2 h1.1 h1.2 hc1
    have hqual2 : qual s (getCell s t2.1 t2.2) (t2.1, t2.2) :=
      qual_self s t2.1 t2.2 h2.1 h2.2 hc2
    by_cases hcc : getCell s t1.1 t1.2 = getCell s t2.1 t2.2
    · -- same colour: `l` joins t2's component, merging the two components
      have hl_comp2 : l ∈ sameColorComponent s (t2.1, t2.2) := by
        refine Relation.ReflTransGen.tail hm_s ⟨adj_symm _ _ (adj_symm _ _ hladj), ?_⟩
        exact ⟨hlinb.1, hlinb.2, by rw [hcl1, hcc], hc2⟩
      have hcomps := comp_eq_of_common s (t1.1, t1.2) (t2.1, t2.2) l hqual1 hqual2
        hl_comp1 hl_comp2
      apply hdisj
      rw [hcomps]
      exact Relation.ReflTransGen.refl
    · -- different colours: the placed cell forces a contradiction
      rcases hpdis with hpe | ⟨hpne, hplib⟩
      · -- p Empty: t1 has a liberty at p
        have : s.has_liberties t1.1 t1.2 = true :=
          hasLib_of_adj_none s hWF.1 (t1.1, t1.2) p (adj_symm _ _ hadj1) hp1 hp2 hpe
        have := from'_hasLib_of_member s t1.1 t1.2 (t1.1, t1.2) (from'_seed_mem s t1.1 t1.2) this
        rw [this] at hl1
        exact absurd hl1 (by simp)
      · -- p occupied with a liberty: its colour can match neither cluster
        have hcp1 : getCell s p.1 p.2 ≠ getCell s t1.1 t1.2 := by
          intro he
          have hp_comp1 : p ∈ sameColorComponent s (t1.1, t1.2) :=
            Relation.ReflTransGen.single ⟨adj_symm _ _ hadj1, hp1, hp2, he, hc1⟩
          have hcp := comp_eq_of_mem s (t1.1, t1.2) p hqual1 hp_comp1
          have : compHasLib s (t1.1, t1.2) := compHasLib_congr s p (t1.1, t1.2) hcp hplib
          have := (from'_has_liberties_iff s t1.1 t1.2 hWF.1).mpr this
          rw [this] at hl1
          exact absurd hl1 (by simp)
        have hcp2 : getCell s p.1 p.2 ≠ getCell s t2.1 t2.2 := by
          intro he
          have hp_comp2 : p ∈ sameColorComponent s (t2.1, t2.2) :=
            Relation.ReflTransGen.single ⟨adj_symm _ _ hadj2, hp1, hp2, he, hc2⟩
          have hcp := comp_eq_of_mem s (t2.1, t2.2) p hqual2 hp_comp2
          have : compHasLib s (t2.1, t2.2) := compHasLib_congr s p (t2.1, t2.2) hcp hplib
          have := (from'_has_liberties_iff s t2.1 t2.2 hWF.1).mpr this
          rw [this] at hl2
          exact absurd hl2 (by simp)
        exact three_colors (getCell s t1.1 t1.2) (getCell s t2.1 t2.2)
          (getCell s p.1 p.2) hc1 hc2 hpne hcc hcp1 hcp2

/-! ### The placement invariant carried through the neighbour phase -/

/-- State invariant during the neighbour phase of a placement at `p` on an
`N × N` board: well-formed, size `N`, and the placed cell is either Empty
or sits in a cluster that has a liberty (the seed evaluation, which runs
first, establishes this). -/
def StepInv (N : Nat) (p : Coord) (s : GoBoard) : Prop :=
  WF s ∧ s.size = N ∧
  (getCell s p.1 p.2 = BoardCellOption.None ∨
    (getCell s p.1 p.2 ≠ BoardCellOption.None ∧ compHasLib s p))

theorem StepInv_init (bw : GoBoard) (x y : Nat) (hWF : WF bw)
    (hx : x < bw.size) (hy : y < bw.size) :
    StepInv bw.size (x, y) (clusterStep bw x y) := by
  refine ⟨clusterStep_WF bw x y hWF, clusterStep_size bw x y, ?_⟩
  by_cases hne : getCell (clusterStep bw x y) x y = BoardCellOption.None
  · exact Or.inl hne
  · refine Or.inr ⟨hne, ?_⟩
    obtain ⟨hc, hcomp⟩ := clusterStep_survive bw x y x y hWF hx hy hx hy hne
    have hbwne : getCell bw x y ≠ BoardCellOption.None := by
      rw [← hc]; exact hne
    have hlibs : (Cluster.from' bw x y).has_liberties bw = true := by
      by_contra hnl
      have hclr_eq : clusterStep bw x y = bw.clear_cluster (Cluster.from' bw x y) := by
        rw [clusterStep_eq, if_neg hnl]
      have hclr : getCell (clusterStep bw x y) x y = BoardCellOption.None := by
        rw [hclr_eq]
        exact getCell_clear_from'_mem bw x y hWF hx hy x y (from'_seed_mem bw x y)
      exact hne hclr
    exact compHasLib_mono bw _ (x, y) (Erases_clusterStep bw x y hWF hx hy) hcomp
      ((from'_has_liberties_iff bw x y hWF.1).mp hlibs)

theorem StepInv_preserved (N : Nat) (p : Coord) (hp1 : p.1 < N) (hp2 : p.2 < N)
    (s : GoBoard) (t : Coord) (hInv : StepInv N p s) :
    StepInv N p (neighborStep s t) := by
  obtain ⟨hWF, hsz, hdis⟩ := hInv
  refine ⟨neighborStep_WF s t hWF, (neighborStep_size s t).trans hsz, ?_⟩
  by_cases hne : getCell (neighborStep s t) p.1 p.2 = BoardCellOption.None
  · exact Or.inl hne
  · have hp1' : p.1 < s.size := by rw [hsz]; exact hp1
    have hp2' : p.2 < s.size := by rw [hsz]; exact hp2
    obtain ⟨hc, hcomp⟩ := neighborStep_survive s t p.1 p.2 hWF hp1' hp2' hne
    rcases hdis with hnone | ⟨hsne, hlib⟩
    · rw [hc] at hne
      exact absurd hnone hne
    · exact Or.inr ⟨hne, compHasLib_mono s _ p (Erases_neighborStep s t hWF) hcomp hlib⟩

/-- Clearing two disjoint liberty-less clusters commutes. -/
theorem double_clear_comm (s : GoBoard) (hWF : WF s) (t1 t2 p : Coord)
    (g1 : t1.1 < s.size ∧ t1.2 < s.size) (g2 : t2.1 < s.size ∧ t2.2 < s.size)
    (hc1 : getCell s t1.1 t1.2 ≠ BoardCellOption.None)
    (hc2 : getCell s t2.1 t2.2 ≠ BoardCellOption.None)
    (hsame : (t2.1, t2.2) ∉ sameColorComponent s (t1.1, t1.2))
    (hdisj21 : (t1.1, t1.2) ∉ sameColorComponent s (t2.1, t2.2))
    (hl1 : (Cluster.from' s t1.1 t1.2).has_liberties s = false)
    (hl2 : (Cluster.from' s t2.1 t2.2).has_liberties s = false)
    (hp1 : p.1 < s.size) (hp2 : p.2 < s.size)
    (hadj1 : adj p (t1.1, t1.2)) (hadj2 : adj p (t2.1, t2.2))
    (hpdis : getCell s p.1 p.2 = BoardCellOption.None ∨
      (getCell s p.1 p.2 ≠ BoardCellOption.None ∧ compHasLib s p)) :
    clusterStep (clusterStep s t1.1 t1.2) t2.1 t2.2 =
      clusterStep (clusterStep s t2.1 t2.2) t1.1 t1.2 := by
  have hqual1 : qual s (getCell s t1.1 t1.2) (t1.1, t1.2) :=
    qual_self s t1.1 t1.2 g1.1 g1.2 hc1
  have hqual2 : qual s (getCell s t2.1 t2.2) (t2.1, t2.2) :=
    qual_self s t2.1 t2.2 g2.1 g2.2 hc2
  have ht2notin1 : (t2.1, t2.2) ∉ (Cluster.from' s t1.1 t1.2).pieces := fun h =>
    hsame ((from'_mem_iff s t1.1 t1.2 hWF.1 _).mp h)
  have ht1notin2 : (t1.1, t1.2) ∉ (Cluster.from' s t2.1 t2.2).pieces := fun h =>
    hdisj21 ((from'_mem_iff s t2.1 t2.2 hWF.1 _).mp h)
  have hl1' : ¬ (Cluster.from' s t1.1 t1.2).has_liberties s = true := by simp [hl1]
  have hl2' : ¬ (Cluster.from' s t2.1 t2.2).has_liberties s = true := by simp [hl2]
  have e1 : clusterStep s t1.1 t1.2 = s.clear_cluster (Cluster.from' s t1.1 t1.2) := by
    rw [clusterStep_eq, if_neg hl1']
  have e2 : clusterStep s t2.1 t2.2 = s.clear_cluster (Cluster.from' s t2.1 t2.2) := by
    rw [clusterStep_eq, if_neg hl2']
  have hS1t2ne : getCell (clusterStep s t1.1 t1.2) t2.1 t2.2 ≠ BoardCellOption.None := by
    rw [e1, getCell_clear_from'_not_mem s t1.1 t1.2 _ _ ht2notin1]
    exact hc2
  have hS2t1ne : getCell (clusterStep s t2.1 t2.2) t1.1 t1.2 ≠ BoardCellOption.None := by
    rw [e2, getCell_clear_from'_not_mem s t2.1 t2.2 _ _ ht1notin2]
    exact hc1
  obtain ⟨hcell12, hcomp12⟩ :=
    clusterStep_survive s t1.1 t1.2 t2.1 t2.2 hWF g1.1 g1.2 g2.1 g2.2 hS1t2ne
  obtain ⟨hcell21, hcomp21⟩ :=
    clusterStep_survive s t2.1 t2.2 t1.1 t1.2 hWF g2.1 g2.2 g1.1 g1.2 hS2t1ne
  have hWF1 : WF (clusterStep s t1.1 t1.2) := clusterStep_WF s t1.1 t1.2 hWF
  have hWF2 : WF (clusterStep s t2.1 t2.2) := clusterStep_WF s t2.1 t2.2 hWF
  have hB1 := libs_false_after_clear s t1 t2 hWF g1 g2 hc1 hc2 hsame hl1 hl2
    p hp1 hp2 hadj1 hadj2 hpdis
  have hB2 := libs_false_after_clear s t2 t1 hWF g2 g1 hc2 hc1 hdisj21 hl2 hl1
    p hp1 hp2 hadj2 hadj1 hpdis
  have o1 : clusterStep (clusterStep s t1.1 t1.2) t2.1 t2.2 =
      (clusterStep s t1.1 t1.2).clear_cluster
        (Cluster.from' (clusterStep s t1.1 t1.2) t2.1 t2.2) := by
    rw [clusterStep_eq, if_neg (by simp [hB1])]
  have o2 : clusterStep (clusterStep s t2.1 t2.2) t1.1 t1.2 =
      (clusterStep s t2.1 t2.2).clear_cluster
        (Cluster.from' (clusterStep s t2.1 t2.2) t1.1 t1.2) := by
    rw [clusterStep_eq, if_neg (by simp [hB2])]
  rw [o1, o2]
  have hm2 : ∀ a : Coord, a ∈ (Cluster.from' (clusterStep s t1.1 t1.2) t2.1 t2.2).pieces ↔
      a ∈ (Cluster.from' s t2.1 t2.2).pieces := by
    intro a
    rw [from'_mem_iff _ t2.1 t2.2 hWF1.1 a, from'_mem_iff s t2.1 t2.2 hWF.1 a, hcomp12]
  have hm1 : ∀ a : Coord, a ∈ (Cluster.from' (clusterStep s t2.1 t2.2) t1.1 t1.2).pieces ↔
      a ∈ (Cluster.from' s t1.1 t1.2).pieces := by
    intro a
    rw [from'_mem_iff _ t1.1 t1.2 hWF2.1 a, from'_mem_iff s t1.1 t1.2 hWF.1 a, hcomp21]
  have hlen2 : (Cluster.from' (clusterStep s t1.1 t1.2) t2.1 t2.2).pieces.length =
      (Cluster.from' s t2.1 t2.2).pieces.length :=
    length_eq_of_mem_iff _ _ (from'_nodup _ _ _) (from'_nodup _ _ _) hm2
  have hlen1 : (Cluster.from' (clusterStep s t2.1 t2.2) t1.1 t1.2).pieces.length =
      (Cluster.from' s t1.1 t1.2).pieces.length :=
    length_eq_of_mem_iff _ _ (from'_nodup _ _ _) (from'_nodup _ _ _) hm1
  have hcol2 : (Cluster.from' (clusterStep s t1.1 t1.2) t2.1 t2.2).color =
      getCell s t2.1 t2.2 := by
    rw [from'_color]
    exact hcell12
  have hcol1 : (Cluster.from' (clusterStep s t2.1 t2.2) t1.1 t1.2).color =
      getCell s t1.1 t1.2 := by
    rw [from'_color]
    exact hcell21
  have hclsz : ∀ (u : GoBoard) (cl : Cluster), (u.clear_cluster cl).size = u.size := by
    intro u cl
    rw [clear_cluster_eq, clearWrites_size, counterBump_size]
  have hg2' : t2.1 < (clusterStep s t1.1 t1.2).size ∧ t2.2 < (clusterStep s t1.1 t1.2).size := by
    rw [clusterStep_size]
    exact g2
  have hg1' : t1.1 < (clusterStep s t2.1 t2.2).size ∧ t1.2 < (clusterStep s t2.1 t2.2).size := by
    rw [clusterStep_size]
    exact g1
  refine board_ext _ _
    (clear_cluster_WF _ _ hWF2) (clear_cluster_WF _ _ hWF1) ?_ ?_ ?_ ?_
  · rw [hclsz, hclsz, clusterStep_size, clusterStep_size]
  · rw [clear_captured_black_eq, clear_captured_black_eq, hcol1, hcol2, hlen1, hlen2,
      e1, e2, clear_captured_black_eq, clear_captured_black_eq, from'_color, from'_color]
    exact Nat.add_right_comm _ _ _
  · rw [clear_captured_white_eq, clear_captured_white_eq, hcol1, hcol2, hlen1, hlen2,
      e1, e2, clear_captured_white_eq, clear_captured_white_eq, from'_color, from'_color]
    exact Nat.add_right_comm _ _ _
  · intro qx qy hqx hqy
    have hqx' : qx < s.size := by
      rw [← clusterStep_size s t2.1 t2.2, ← hclsz (clusterStep s t2.1 t2.2)
        (Cluster.from' (clusterStep s t2.1 t2.2) t1.1 t1.2)]
      exact hqx
    have hqy' : qy < s.size := by
      rw [← clusterStep_size s t2.1 t2.2, ← hclsz (clusterStep s t2.1 t2.2)
        (Cluster.from' (clusterStep s t2.1 t2.2) t1.1 t1.2)]
      exact hqy
    by_cases hq1 : (qx, qy) ∈ (Cluster.from' s t1.1 t1.2).pieces
    · by_cases hq2 : (qx, qy) ∈ (Cluster.from' s t2.1 t2.2).pieces
      · exfalso
        have hmem1 := (from'_mem_iff s t1.1 t1.2 hWF.1 _).mp hq1
        have hmem2 := (from'_mem_iff s t2.1 t2.2 hWF.1 _).mp hq2
        have := comp_eq_of_common s (t1.1, t1.2) (t2.1, t2.2) (qx, qy)
          hqual1 hqual2 hmem1 hmem2
        apply hsame
        rw [this]
        exact Relation.ReflTransGen.refl
      · -- member of t1's cluster only
        rw [getCell_clear_from'_mem (clusterStep s t2.1 t2.2) t1.1 t1.2 hWF2
          hg1'.1 hg1'.2 qx qy ((hm1 _).mpr hq1)]
        rw [getCell_clear_from'_not_mem _ t2.1 t2.2 qx qy
          (fun h => hq2 ((hm2 _).mp h))]
        rw [e1, getCell_clear_from'_mem s t1.1 t1.2 hWF g1.1 g1.2 qx qy hq1]
    · by_cases hq2 : (qx, qy) ∈ (Cluster.from' s t2.1 t2.2).pieces
      · rw [getCell_clear_from'_not_mem _ t1.1 t1.2 qx qy
          (fun h => hq1 ((hm1 _).mp h))]
        rw [e2, getCell_clear_from'_mem s t2.1 t2.2 hWF g2.1 g2.2 qx qy hq2]
        rw [getCell_clear_from'_mem (clusterStep s t1.1 t1.2) t2.1 t2.2 hWF1
          hg2'.1 hg2'.2 qx qy ((hm2 _).mpr hq2)]
      · rw [getCell_clear_from'_not_mem _ t1.1 t1.2 qx qy
          (fun h => hq1 ((hm1 _).mp h))]
        rw [getCell_clear_from'_not_mem _ t2.1 t2.2 qx qy
          (fun h => hq2 ((hm2 _).mp h))]
        rw [e1, e2]
        rw [getCell_clear_from'_not_mem s t1.1 t1.2 qx qy hq1,
          getCell_clear_from'_not_mem s t2.1 t2.2 qx qy hq2]

/-- Two neighbour-cluster evaluations commute on any state satisfying the
placement invariant. -/
theorem clusterStep_comm (s : GoBoard) (hWF : WF s) (t1 t2 p : Coord)
    (g1 : t1.1 < s.size ∧ t1.2 < s.size) (g2 : t2.1 < s.size ∧ t2.2 < s.size)
    (hp1 : p.1 < s.size) (hp2 : p.2 < s.size)
    (hadj1 : adj p (t1.1, t1.2)) (hadj2 : adj p (t2.1, t2.2))
    (hpdis : getCell s p.1 p.2 = BoardCellOption.None ∨
      (getCell s p.1 p.2 ≠ BoardCellOption.None ∧ compHasLib s p)) :
    clusterStep (clusterStep s t1.1 t1.2) t2.1 t2.2 =
      clusterStep (clusterStep s t2.1 t2.2) t1.1 t1.2 := by
  by_cases he1 : getCell s t1.1 t1.2 = BoardCellOption.None
  · rw [clusterStep_of_empty s t1.1 t1.2 he1,
      clusterStep_of_empty (clusterStep s t2.1 t2.2) t1.1 t1.2
        (cell_none_mono s _ (Erases_clusterStep s t2.1 t2.2 hWF g2.1 g2.2)
          t1.1 t1.2 g1.1 g1.2 he1)]
  by_cases he2 : getCell s t2.1 t2.2 = BoardCellOption.None
  · rw [clusterStep_of_empty s t2.1 t2.2 he2,
      clusterStep_of_empty (clusterStep s t1.1 t1.2) t2.1 t2.2
        (cell_none_mono s _ (Erases_clusterStep s t1.1 t1.2 hWF g1.1 g1.2)
          t2.1 t2.2 g2.1 g2.2 he2)]
  have hqual1 : qual s (getCell s t1.1 t1.2) (t1.1, t1.2) :=
    qual_self s t1.1 t1.2 g1.1 g1.2 he1
  have hqual2 : qual s (getCell s t2.1 t2.2) (t2.1, t2.2) :=
    qual_self s t2.1 t2.2 g2.1 g2.2 he2
  by_cases hsame : (t2.1, t2.2) ∈ sameColorComponent s (t1.1, t1.2)
  · -- same cluster
    have hcc : getCell s t2.1 t2.2 = getCell s t1.1 t1.2 :=
      comp_color_eq s (t1.1, t1.2) (t2.1, t2.2) hsame
    have hcomps : sameColorComponent s (t2.1, t2.2) = sameColorComponent s (t1.1, t1.2) :=
      comp_eq_of_mem s (t1.1, t1.2) (t2.1, t2.2) hqual1 hsame
    have hpi : ∀ a : Coord, a ∈ (Cluster.from' s t2.1 t2.2).pieces ↔
        a ∈ (Cluster.from' s t1.1 t1.2).pieces := by
      intro a
      rw [from'_mem_iff s t2.1 t2.2 hWF.1 a, from'_mem_iff s t1.1 t1.2 hWF.1 a, hcomps]
    have hliff : (Cluster.from' s t1.1 t1.2).has_liberties s = true ↔
        (Cluster.from' s t2.1 t2.2).has_liberties s = true := by
      rw [from'_has_liberties_iff s t1.1 t1.2 hWF.1,
        from'_has_liberties_iff s t2.1 t2.2 hWF.1]
      constructor
      · exact compHasLib_congr s _ _ hcomps.symm
      · exact compHasLib_congr s _ _ hcomps
    by_cases hl1 : (Cluster.from' s t1.1 t1.2).has_liberties s = true
    · have hl2 := hliff.mp hl1
      have f1 : clusterStep s t1.1 t1.2 = s := by rw [clusterStep_eq, if_pos hl1]
      have f2 : clusterStep s t2.1 t2.2 = s := by rw [clusterStep_eq, if_pos hl2]
      rw [f1, f2, f1]
    · have hl2 : ¬ (Cluster.from' s t2.1 t2.2).has_liberties s = true := fun h =>
        hl1 (hliff.mpr h)
      have f1 : clusterStep s t1.1 t1.2 = s.clear_cluster (Cluster.from' s t1.1 t1.2) := by
        rw [clusterStep_eq, if_neg hl1]
      have f2 : clusterStep s t2.1 t2.2 = s.clear_cluster (Cluster.from' s t2.1 t2.2) := by
        rw [clusterStep_eq, if_neg hl2]
      have ht2mem1 : (t2.1, t2.2) ∈ (Cluster.from' s t1.1 t1.2).pieces :=
        (hpi _).mp (from'_seed_mem s t2.1 t2.2)
      have ht1mem2 : (t1.1, t1.2) ∈ (Cluster.from' s t2.1 t2.2).pieces :=
        (hpi _).mpr (from'_seed_mem s t1.1 t1.2)
      have hLc : getCell (clusterStep s t1.1 t1.2) t2.1 t2.2 = BoardCellOption.None := by
        rw [f1]
        exact getCell_clear_from'_mem s t1.1 t1.2 hWF g1.1 g1.2 t2.1 t2.2 ht2mem1
      have hRc : getCell (clusterStep s t2.1 t2.2) t1.1 t1.2 = BoardCellOption.None := by
        rw [f2]
        exact getCell_clear_from'_mem s t2.1 t2.2 hWF g2.1 g2.2 t1.1 t1.2 ht1mem2
      rw [clusterStep_of_empty _ t2.1 t2.2 hLc, clusterStep_of_empty _ t1.1 t1.2 hRc,
        f1, f2]
      exact clear_from'_ext s t1.1 t1.2 t2.1 t2.2 hWF g1.1 g1.2
        (fun a => (hpi a).symm) (by rw [from'_color, from'_color]; exact hcc.symm)
  · -- disjoint clusters
    have hdisj21 : (t1.1, t1.2) ∉ sameColorComponent s (t2.1, t2.2) := by
      intro h
      have hcp := comp_eq_of_mem s (t2.1, t2.2) (t1.1, t1.2) hqual2 h
      apply hsame
      rw [hcp]
      exact Relation.ReflTransGen.refl
    have ht2notin1 : (t2.1, t2.2) ∉ (Cluster.from' s t1.1 t1.2).pieces := fun h =>
      hsame ((from'_mem_iff s t1.1 t1.2 hWF.1 _).mp h)
    have ht1notin2 : (t1.1, t1.2) ∉ (Cluster.from' s t2.1 t2.2).pieces := fun h =>
      hdisj21 ((from'_mem_iff s t2.1 t2.2 hWF.1 _).mp h)
    by_cases hl1 : (Cluster.from' s t1.1 t1.2).has_liberties s = true
    · by_cases hl2 : (Cluster.from' s t2.1 t2.2).has_liberties s = true
      · have f1 : clusterStep s t1.1 t1.2 = s := by rw [clusterStep_eq, if_pos hl1]
        have f2 : clusterStep s t2.1 t2.2 = s := by rw [clusterStep_eq, if_pos hl2]
        rw [f1, f2, f1]
      · -- t1 keeps liberties, t2 is cleared
        have f1 : clusterStep s t1.1 t1.2 = s := by rw [clusterStep_eq, if_pos hl1]
        rw [f1]
        have f2 : clusterStep s t2.1 t2.2 = s.clear_cluster (Cluster.from' s t2.1 t2.2) := by
          rw [clusterStep_eq, if_neg hl2]
        have hS2t1ne : getCell (clusterStep s t2.1 t2.2) t1.1 t1.2 ≠ BoardCellOption.None := by
          rw [f2, getCell_clear_from'_not_mem s t2.1 t2.2 _ _ ht1notin2]
          exact he1
        obtain ⟨hcell1, hcomp1⟩ :=
          clusterStep_survive s t2.1 t2.2 t1.1 t1.2 hWF g2.1 g2.2 g1.1 g1.2 hS2t1ne
        have hWF2 : WF (clusterStep s t2.1 t2.2) := clusterStep_WF s t2.1 t2.2 hWF
        have hlib' : (Cluster.from' (clusterStep s t2.1 t2.2) t1.1 t1.2).has_liberties
            (clusterStep s t2.1 t2.2) = true := by
          rw [from'_has_liberties_iff _ t1.1 t1.2 hWF2.1]
          exact compHasLib_mono s _ (t1.1, t1.2)
            (Erases_clusterStep s t2.1 t2.2 hWF g2.1 g2.2) hcomp1
            ((from'_has_liberties_iff s t1.1 t1.2 hWF.1).mp hl1)
        rw [show clusterStep (clusterStep s t2.1 t2.2) t1.1 t1.2 = clusterStep s t2.1 t2.2
          from by rw [clusterStep_eq, if_pos hlib']]
    · by_cases hl2 : (Cluster.from' s t2.1 t2.2).has_liberties s = true
      · -- t2 keeps liberties, t1 is cleared (mirror)
        have f2 : clusterStep s t2.1 t2.2 = s := by rw [clusterStep_eq, if_pos hl2]
        rw [f2]
        have f1 : clusterStep s t1.1 t1.2 = s.clear_cluster (Cluster.from' s t1.1 t1.2) := by
          rw [clusterStep_eq, if_neg hl1]
        have hS1t2ne : getCell (clusterStep s t1.1 t1.2) t2.1 t2.2 ≠ BoardCellOption.None := by
          rw [f1, getCell_clear_from'_not_mem s t1.1 t1.2 _ _ ht2notin1]
          exact he2
        obtain ⟨hcell2, hcomp2⟩ :=
          clusterStep_survive s t1.1 t1.2 t2.1 t2.2 hWF g1.1 g1.2 g2.1 g2.2 hS1t2ne
        have hWF1 : WF (clusterStep s t1.1 t1.2) := clusterStep_WF s t1.1 t1.2 hWF
        have hlib' : (Cluster.from' (clusterStep s t1.1 t1.2) t2.1 t2.2).has_liberties
            (clusterStep s t1.1 t1.2) = true := by
          rw [from'_has_liberties_iff _ t2.1 t2.2 hWF1.1]
          exact compHasLib_mono s _ (t2.1, t2.2)
            (Erases_clusterStep s t1.1 t1.2 hWF g1.1 g1.2) hcomp2
            ((from'_has_liberties_iff s t2.1 t2.2 hWF.1).mp hl2)
        rw [show clusterStep (clusterStep s t1.1 t1.2) t2.1 t2.2 = clusterStep s t1.1 t1.2
          from by rw [clusterStep_eq, if_pos hlib']]
      · -- both liberty-less: the disjoint double clear
        have hl1' : (Cluster.from' s t1.1 t1.2).has_liberties s = false := by
          revert hl1
          cases h : (Cluster.from' s t1.1 t1.2).has_liberties s <;> simp
        have hl2' : (Cluster.from' s t2.1 t2.2).has_liberties s = false := by
          revert hl2
          cases h : (Cluster.from' s t2.1 t2.2).has_liberties s <;> simp
        exact double_clear_comm s hWF t1 t2 p g1 g2 he1 he2 hsame hdisj21 hl1' hl2'
          hp1 hp2 hadj1 hadj2 hpdis

theorem neighborStep_comm (N : Nat) (p : Coord) (hp1 : p.1 < N) (hp2 : p.2 < N)
    (s : GoBoard) (hInv : StepInv N p s) (t1 t2 : Coord)
    (hP1 : t1.1 < N ∧ t1.2 < N → adj p (t1.1, t1.2))
    (hP2 : t2.1 < N ∧ t2.2 < N → adj p (t2.1, t2.2)) :
    neighborStep (neighborStep s t1) t2 = neighborStep (neighborStep s t2) t1 := by
  obtain ⟨hWF, hsz, hpdis⟩ := hInv
  have hgneg : ∀ (u : GoBoard) (t : Coord), u.size = s.size →
      ¬(t.1 < s.size ∧ t.2 < s.size) → neighborStep u t = u := by
    intro u t hu hng
    unfold neighborStep
    rw [if_neg (by rw [hu]; exact hng)]
  have hgpos : ∀ (u : GoBoard) (t : Coord), u.size = s.size →
      (t.1 < s.size ∧ t.2 < s.size) → neighborStep u t = clusterStep u t.1 t.2 := by
    intro u t hu hg
    unfold neighborStep
    rw [if_pos (by rw [hu]; exact hg)]
  by_cases g1 : t1.1 < s.size ∧ t1.2 < s.size
  · by_cases g2 : t2.1 < s.size ∧ t2.2 < s.size
    · rw [hgpos s t1 rfl g1, hgpos s t2 rfl g2,
        hgpos _ t2 (clusterStep_size s t1.1 t1.2) g2,
        hgpos _ t1 (clusterStep_size s t2.1 t2.2) g1]
      have hb1 : t1.1 < N ∧ t1.2 < N := ⟨hsz ▸ g1.1, hsz ▸ g1.2⟩
      have hb2 : t2.1 < N ∧ t2.2 < N := ⟨hsz ▸ g2.1, hsz ▸ g2.2⟩
      exact clusterStep_comm s hWF t1 t2 p g1 g2 (by rw [hsz]; exact hp1)
        (by rw [hsz]; exact hp2) (hP1 hb1) (hP2 hb2) hpdis
    · rw [hgneg s t2 rfl g2, hgneg _ t2 (neighborStep_size s t1) g2]
  · rw [hgneg s t1 rfl g1, hgneg _ t1 (neighborStep_size s t2) g1]

theorem foldl_perm_neighborStep (N : Nat) (p : Coord) (hp1 : p.1 < N) (hp2 : p.2 < N) :
    ∀ (ts ts' : List Coord), ts.Perm ts' →
      ∀ s : GoBoard, StepInv N p s →
      (∀ t ∈ ts, t.1 < N ∧ t.2 < N → adj p (t.1, t.2)) →
      ts.foldl neighborStep s = ts'.foldl neighborStep s := by
  intro ts ts' hperm
  induction hperm with
  | nil => intro s _ _; rfl
  | cons a hpm ih =>
    intro s hInv hP
    rw [List.foldl_cons, List.foldl_cons]
    exact ih (neighborStep s a) (StepInv_preserved N p hp1 hp2 s a hInv)
      (fun t ht => hP t (List.mem_cons_of_mem _ ht))
  | swap a b rest =>
    intro s hInv hP
    rw [List.foldl_cons, List.foldl_cons, List.foldl_cons, List.foldl_cons]
    have hPb : b.1 < N ∧ b.2 < N → adj p (b.1, b.2) :=
      hP b (List.mem_cons_self _ _)
    have hPa : a.1 < N ∧ a.2 < N → adj p (a.1, a.2) :=
      hP a (List.mem_cons_of_mem _ (List.mem_cons_self _ _))
    rw [neighborStep_comm N p hp1 hp2 s hInv b a hPb hPa]
  | trans h1 h2 ih1 ih2 =>
    intro s hInv hP
    rw [ih1 s hInv hP, ih2 s hInv (fun t ht => hP t (h1.mem_iff.mpr ht))]

/-- The placement-resolution phase with the four neighbour clusters
evaluated in an arbitrary order `ts` (seed cluster first, as always). -/
def updatePerm (b : GoBoard) (x y : Nat) (ts : List Coord) : GoBoard :=
  ts.foldl neighborStep (clusterStep b x y)

theorem targets_adj (x y N : Nat) (hN : N ≤ USIZE_MAX) :
    ∀ t ∈ targetsOf x y, t.1 < N ∧ t.2 < N → adj (x, y) (t.1, t.2) := by
  intro t ht hinb
  simp only [targetsOf, List.mem_cons, List.mem_singleton] at ht
  rcases ht with rfl | rfl | rfl | (rfl | h)
  · exact adj_left x y (wsub_succ_of_lt N x hN hinb.1)
  · exact adj_right x y
  · exact adj_up x y (wsub_succ_of_lt N y hN hinb.2)
  · exact adj_down x y
  · exact absurd h (List.not_mem_nil t)

/-- C7: for an in-bounds placement, evaluating the four neighbour clusters
in any permutation of the implemented order (after the seed cluster, which
always goes first) produces exactly the same final board: same grid, same
capture counters. -/
theorem C7_neighbor_order_irrelevant (b : GoBoard) (x y : Nat) (piece : BoardCellOption)
    (hWF : WF b) (hx : x < b.size) (hy : y < b.size)
    (ts : List Coord) (hperm : ts.Perm (targetsOf x y)) :
    updatePerm (writeCell b x y piece) x y ts = b.set x y piece := by
  have hWFw : WF (writeCell b x y piece) := WF_writeCell b x y piece hWF
  have hset : b.set x y piece = (writeCell b x y piece).update x y := by
    unfold GoBoard.set
    rw [if_pos ⟨hx, hy⟩]
  rw [hset, update_eq_fold (writeCell b x y piece) x y hx hy]
  refine foldl_perm_neighborStep b.size (x, y) hx hy ts (targetsOf x y) hperm _ ?_ ?_
  · exact StepInv_init (writeCell b x y piece) x y hWFw hx hy
  · intro t ht
    exact targets_adj x y b.size hWF.1 t (hperm.mem_iff.mp ht)

/-- Witness for C7: a reversed neighbour order on the 3×3 capture scenario. -/
theorem C7_witness :
    WF boardC3 ∧ 1 < boardC3.size ∧ 2 < boardC3.size ∧
    ([((1 : Nat), (3 : Nat)), (1, 1), (2, 2), (0, 2)] : List Coord).Perm (targetsOf 1 2) ∧
    updatePerm (writeCell boardC3 1 2 BoardCellOption.Black) 1 2
      [(1, 3), (1, 1), (2, 2), (0, 2)] = boardC3.set 1 2 BoardCellOption.Black :=
  ⟨by decide, by decide, by decide, by decide,
   C7_neighbor_order_irrelevant boardC3 1 2 BoardCellOption.Black
     (by decide) (by decide) (by decide) [(1, 3), (1, 1), (2, 2), (0, 2)] (by decide)⟩
